import Mathlib

/-!
Shallow embedding of the real-time chat backend (`src/backend/app.py`) and
verification of its specification claims.

The backend stores every entity collection in a hand-rolled chained hash
table (`HashTable` over `LinkedList` chains).  Route handlers are embedded
as pure functions on an explicit `AppState`; the socket emissions are
collected in an explicit event list; `datetime.now()` values and generated
uuids are passed in as parameters.
-/

set_option maxHeartbeats 1000000
set_option maxRecDepth 10000

namespace ChatApp

/-- Error kinds returned by the request layer (HTTP statuses in the source:
400 invalid input, 404 not found, 409 duplicate/conflict, 403 forbidden). -/
inductive Err where
  | invalidInput
  | notFound
  | duplicate
  | conflict
  | forbidden
deriving DecidableEq, Repr

/-- A chain of `Node(key, value)` records, in link order. -/
abbrev Chain (α : Type) := List (String × α)

namespace LinkedList

variable {α : Type}

/-- `LinkedList.get`: value of the first node carrying the key. -/
def get (l : Chain α) (k : String) : Option α :=
  match l with
  | [] => none
  | (k', v) :: t => if k' = k then some v else get t k

/-- `LinkedList.add`: append a new node at the tail. -/
def add (l : Chain α) (k : String) (v : α) : Chain α := l ++ [(k, v)]

/-- `LinkedList.update`: overwrite the value of the first node carrying the key. -/
def update (l : Chain α) (k : String) (v : α) : Chain α :=
  match l with
  | [] => []
  | (k', v') :: t => if k' = k then (k', v) :: t else (k', v') :: update t k v

/-- `LinkedList.remove`: unlink the first node carrying the key. -/
def remove (l : Chain α) (k : String) : Chain α :=
  match l with
  | [] => []
  | (k', v') :: t => if k' = k then t else (k', v') :: remove t k

/-- `LinkedList.get_all`: the stored values in chain order. -/
def get_all (l : Chain α) : List α := l.map Prod.snd

theorem get_eq_none_iff (l : Chain α) (k : String) :
    get l k = none ↔ k ∉ l.map Prod.fst := by
  induction l with
  | nil => simp [get]
  | cons hd t ih =>
    obtain ⟨k', v⟩ := hd
    by_cases hk : k' = k
    · subst hk
      simp [get]
    · simp [get, hk, ih, Ne.symm hk]

theorem get_isSome_iff (l : Chain α) (k : String) :
    (get l k).isSome = true ↔ k ∈ l.map Prod.fst := by
  rw [← Decidable.not_iff_not, ← get_eq_none_iff]
  cases get l k <;> simp

theorem get_update_ne (l : Chain α) (k k' : String) (v : α) (h : k' ≠ k) :
    get (update l k v) k' = get l k' := by
  induction l with
  | nil => rfl
  | cons hd t ih =>
    obtain ⟨k₀, v₀⟩ := hd
    by_cases hk : k₀ = k
    · have hne : ¬ k₀ = k' := fun hh => h (hh ▸ hk)
      simp only [update, if_pos hk, get, if_neg hne]
    · simp only [update, if_neg hk, get]
      by_cases hk' : k₀ = k'
      · simp only [if_pos hk']
      · simp only [if_neg hk', ih]

theorem get_update_self (l : Chain α) (k : String) (v : α)
    (h : (get l k).isSome = true) : get (update l k v) k = some v := by
  induction l with
  | nil => simp [get] at h
  | cons hd t ih =>
    obtain ⟨k₀, v₀⟩ := hd
    by_cases hk : k₀ = k
    · simp [update, hk, get]
    · simp only [get, if_neg hk] at h
      simp [update, hk, get, ih h]

theorem map_fst_update (l : Chain α) (k : String) (v : α) :
    (update l k v).map Prod.fst = l.map Prod.fst := by
  induction l with
  | nil => simp [update]
  | cons hd t ih =>
    obtain ⟨k₀, v₀⟩ := hd
    by_cases hk : k₀ = k <;> simp [update, hk, ih]

theorem map_fst_add (l : Chain α) (k : String) (v : α) :
    (add l k v).map Prod.fst = l.map Prod.fst ++ [k] := by
  simp [add]

theorem get_add_self (l : Chain α) (k : String) (v : α)
    (h : get l k = none) : get (add l k v) k = some v := by
  induction l with
  | nil => simp [add, get]
  | cons hd t ih =>
    obtain ⟨k₀, v₀⟩ := hd
    by_cases hk : k₀ = k
    · simp [get, hk] at h
    · simp only [get, if_neg hk] at h
      simpa [add, get, hk] using ih h

theorem get_add_ne (l : Chain α) (k k' : String) (v : α) (h : k' ≠ k) :
    get (add l k v) k' = get l k' := by
  induction l with
  | nil => simp [add, get, Ne.symm h]
  | cons hd t ih =>
    obtain ⟨k₀, v₀⟩ := hd
    by_cases hk : k₀ = k'
    · simp [add, get, hk]
    · simpa [add, get, hk] using ih

theorem remove_sublist (l : Chain α) (k : String) : List.Sublist (remove l k) l := by
  induction l with
  | nil => simp [remove]
  | cons hd t ih =>
    obtain ⟨k₀, v₀⟩ := hd
    by_cases hk : k₀ = k
    · simp only [remove, if_pos hk]
      exact List.sublist_cons_self _ _
    · simp only [remove, if_neg hk]
      exact ih.cons₂ _

theorem getRemoveSelf (l : Chain α) (k : String)
    (hnd : (l.map Prod.fst).Nodup) : get (remove l k) k = none := by
  induction l with
  | nil => simp [remove, get]
  | cons hd t ih =>
    obtain ⟨k₀, v₀⟩ := hd
    simp only [List.map_cons, List.nodup_cons] at hnd
    by_cases hk : k₀ = k
    · subst hk
      simp only [remove, if_pos rfl]
      rw [get_eq_none_iff]
      exact hnd.1
    · simp [remove, hk, get, ih hnd.2]

theorem getRemoveNe (l : Chain α) (k k' : String) (h : k' ≠ k) :
    get (remove l k) k' = get l k' := by
  induction l with
  | nil => rfl
  | cons hd t ih =>
    obtain ⟨k₀, v₀⟩ := hd
    by_cases hk : k₀ = k
    · have hne : ¬ k₀ = k' := fun hh => h (hh ▸ hk)
      simp only [remove, if_pos hk, get, if_neg hne]
    · simp only [remove, if_neg hk, get]
      by_cases hk' : k₀ = k'
      · simp only [if_pos hk']
      · simp only [if_neg hk', ih]

theorem get_eq_some_iff_mem (l : Chain α) (k : String) (v : α)
    (hnd : (l.map Prod.fst).Nodup) : get l k = some v ↔ (k, v) ∈ l := by
  induction l with
  | nil => simp [get]
  | cons hd t ih =>
    obtain ⟨k₀, v₀⟩ := hd
    simp only [List.map_cons, List.nodup_cons] at hnd
    by_cases hk : k₀ = k
    · simp only [get, if_pos hk, List.mem_cons, Option.some_inj]
      constructor
      · rintro rfl
        exact Or.inl (by rw [hk])
      · rintro (h | h)
        · have h1 : k₀ = k ∧ v = v₀ := by
            have := Prod.mk.injEq k v k₀ v₀ ▸ h
            exact ⟨this.1.symm, this.2⟩
          exact h1.2.symm
        · exact absurd (hk ▸ List.mem_map_of_mem Prod.fst h) hnd.1
    · simp only [get, if_neg hk, List.mem_cons, ih hnd.2]
      constructor
      · exact Or.inr
      · rintro (h | h)
        · exact absurd (congrArg Prod.fst h).symm hk
        · exact h

end LinkedList

/-- `HashTable._hash` on a string key: sum of code points modulo the size. -/
def hashStr (s : String) (n : Nat) : Nat :=
  (s.data.map Char.toNat).sum % n

/-- The bespoke chained hash table backing every entity collection. -/
structure HashTable (α : Type) where
  size : Nat
  table : List (Chain α)
deriving DecidableEq

namespace HashTable

variable {α : Type}

/-- A fresh table of `size` empty buckets (source default `size=100`). -/
def empty (α : Type) (size : Nat := 100) : HashTable α :=
  ⟨size, List.replicate size []⟩

def bucketAt (h : HashTable α) (i : Nat) : Chain α := h.table.getD i []

def idx (h : HashTable α) (k : String) : Nat := hashStr k h.size

/-- `HashTable.insert`: overwrite in place when the key is already chained
(`existing` truthy), otherwise append a node to the key's bucket. -/
def insert (h : HashTable α) (k : String) (v : α) : HashTable α :=
  if (LinkedList.get (h.bucketAt (h.idx k)) k).isSome then
    { h with table := h.table.set (h.idx k) (LinkedList.update (h.bucketAt (h.idx k)) k v) }
  else
    { h with table := h.table.set (h.idx k) (LinkedList.add (h.bucketAt (h.idx k)) k v) }

def get (h : HashTable α) (k : String) : Option α :=
  LinkedList.get (h.bucketAt (h.idx k)) k

def remove (h : HashTable α) (k : String) : HashTable α :=
  { h with table := h.table.set (h.idx k) (LinkedList.remove (h.bucketAt (h.idx k)) k) }

/-- `HashTable.get_all`: concatenation of every bucket's values, bucket by bucket. -/
def get_all (h : HashTable α) : List α :=
  (h.table.map LinkedList.get_all).flatten

/-- All key-value pairs in `get_all` traversal order. -/
def pairs (h : HashTable α) : List (String × α) := h.table.flatten

/-- Well-formedness maintained by the table operations: the bucket list has
the declared length, and every bucket holds keys hashing to its own index,
each key at most once. -/
def WF (h : HashTable α) : Prop :=
  h.table.length = h.size ∧ 0 < h.size ∧
  ∀ i < h.size, ((h.bucketAt i).map Prod.fst).Nodup ∧
    ∀ kv ∈ h.bucketAt i, hashStr kv.1 h.size = i

instance (h : HashTable α) : Decidable h.WF := by
  unfold WF
  infer_instance

theorem get_all_eq_map_pairs (h : HashTable α) :
    h.get_all = h.pairs.map Prod.snd := by
  unfold get_all pairs
  induction h.table with
  | nil => rfl
  | cons b t ih =>
    simp only [List.map_cons, List.flatten_cons, List.map_append, ih, LinkedList.get_all]

theorem getD_set_self {β : Type} (l : List β) (i : Nat) (b d : β) (h : i < l.length) :
    (l.set i b).getD i d = b := by
  induction l generalizing i with
  | nil => simp at h
  | cons x t ih =>
    cases i with
    | zero => rfl
    | succ n => exact ih n (by simpa using h)

theorem getD_set_ne {β : Type} (l : List β) (i j : Nat) (b d : β) (h : i ≠ j) :
    (l.set i b).getD j d = l.getD j d := by
  induction l generalizing i j with
  | nil => simp
  | cons x t ih =>
    cases i with
    | zero =>
      cases j with
      | zero => exact absurd rfl h
      | succ m => rfl
    | succ n =>
      cases j with
      | zero => rfl
      | succ m =>
        show (t.set n b).getD m d = t.getD m d
        exact ih n m (fun hh => h (by rw [hh]))

theorem getD_eq_getElem {β : Type} (l : List β) (i : Nat) (d : β) (h : i < l.length) :
    l.getD i d = l[i] := by
  simp [List.getD, List.getElem?_eq_getElem h]

theorem idx_lt_size (h : HashTable α) (hpos : 0 < h.size) (k : String) :
    h.idx k < h.size := Nat.mod_lt _ hpos

theorem size_insert (h : HashTable α) (k : String) (v : α) :
    (h.insert k v).size = h.size := by
  unfold insert
  split <;> rfl

theorem size_remove (h : HashTable α) (k : String) : (h.remove k).size = h.size := rfl

theorem idx_insert (h : HashTable α) (k k' : String) (v : α) :
    (h.insert k v).idx k' = h.idx k' := by
  unfold idx
  rw [size_insert]

theorem table_insert (h : HashTable α) (k : String) (v : α) :
    (h.insert k v).table =
      if (LinkedList.get (h.bucketAt (h.idx k)) k).isSome then
        h.table.set (h.idx k) (LinkedList.update (h.bucketAt (h.idx k)) k v)
      else
        h.table.set (h.idx k) (LinkedList.add (h.bucketAt (h.idx k)) k v) := by
  unfold insert
  split <;> rfl

theorem get_insert_self (h : HashTable α) (hWF : h.WF) (k : String) (v : α) :
    (h.insert k v).get k = some v := by
  obtain ⟨hlen, hpos, _⟩ := hWF
  have hi : h.idx k < h.table.length := by rw [hlen]; exact idx_lt_size h hpos k
  unfold get bucketAt
  rw [idx_insert, table_insert]
  by_cases hb : (LinkedList.get (h.bucketAt (h.idx k)) k).isSome
  · rw [if_pos hb, getD_set_self _ _ _ _ hi]
    exact LinkedList.get_update_self _ _ _ hb
  · rw [if_neg hb, getD_set_self _ _ _ _ hi]
    refine LinkedList.get_add_self _ _ _ ?_
    cases hx : LinkedList.get (h.bucketAt (h.idx k)) k
    · rfl
    · rw [hx] at hb
      exact absurd rfl hb

theorem get_insert_ne (h : HashTable α) (hWF : h.WF) (k k' : String) (v : α)
    (hne : k' ≠ k) : (h.insert k v).get k' = h.get k' := by
  obtain ⟨hlen, hpos, _⟩ := hWF
  have hi : h.idx k < h.table.length := by rw [hlen]; exact idx_lt_size h hpos k
  unfold get
  rw [idx_insert]
  show LinkedList.get ((h.insert k v).table.getD (h.idx k') []) k' =
    LinkedList.get (h.table.getD (h.idx k') []) k'
  rw [table_insert]
  by_cases hsame : h.idx k' = h.idx k
  · by_cases hb : (LinkedList.get (h.bucketAt (h.idx k)) k).isSome
    · rw [if_pos hb, hsame, getD_set_self _ _ _ _ hi,
        LinkedList.get_update_ne _ _ _ _ hne]
      rfl
    · rw [if_neg hb, hsame, getD_set_self _ _ _ _ hi,
        LinkedList.get_add_ne _ _ _ _ hne]
      rfl
  · by_cases hb : (LinkedList.get (h.bucketAt (h.idx k)) k).isSome
    · rw [if_pos hb, getD_set_ne _ _ _ _ _ (fun hh => hsame hh.symm)]
    · rw [if_neg hb, getD_set_ne _ _ _ _ _ (fun hh => hsame hh.symm)]

theorem bucketAt_set_self (h : HashTable α) (i : Nat) (b : Chain α)
    (hi : i < h.table.length) :
    ({ h with table := h.table.set i b } : HashTable α).bucketAt i = b :=
  getD_set_self _ _ _ _ hi

theorem bucketAt_set_ne (h : HashTable α) (i j : Nat) (b : Chain α) (hij : i ≠ j) :
    ({ h with table := h.table.set i b } : HashTable α).bucketAt j = h.bucketAt j :=
  getD_set_ne _ _ _ _ _ hij

theorem WF_set_bucket (h : HashTable α) (hWF : h.WF) (i : Nat) (b : Chain α)
    (hnd : (b.map Prod.fst).Nodup) (hhash : ∀ kv ∈ b, hashStr kv.1 h.size = i) :
    ({ h with table := h.table.set i b } : HashTable α).WF := by
  obtain ⟨hlen, hpos, hbk⟩ := hWF
  refine ⟨by simpa using hlen, hpos, fun j hj => ?_⟩
  by_cases hij : i = j
  · subst hij
    rw [bucketAt_set_self h i b (by rw [hlen]; exact hj)]
    exact ⟨hnd, hhash⟩
  · rw [bucketAt_set_ne h i j b hij]
    exact hbk j hj

theorem WF_insert (h : HashTable α) (hWF : h.WF) (k : String) (v : α) :
    (h.insert k v).WF := by
  have hWF' := hWF
  obtain ⟨hlen, hpos, hbk⟩ := hWF'
  have hi := idx_lt_size h hpos k
  have hb := hbk (h.idx k) hi
  unfold insert
  by_cases hex : (LinkedList.get (h.bucketAt (h.idx k)) k).isSome
  · rw [if_pos hex]
    refine WF_set_bucket h hWF _ _ ?_ ?_
    · rw [LinkedList.map_fst_update]
      exact hb.1
    · intro kv hkv
      have hmem : kv.1 ∈ (h.bucketAt (h.idx k)).map Prod.fst := by
        rw [← LinkedList.map_fst_update (h.bucketAt (h.idx k)) k v]
        exact List.mem_map_of_mem _ hkv
      obtain ⟨kv', hkv', he⟩ := List.mem_map.mp hmem
      rw [← he]
      exact hb.2 kv' hkv'
  · rw [if_neg hex]
    refine WF_set_bucket h hWF _ _ ?_ ?_
    · rw [LinkedList.map_fst_add]
      have hknot : k ∉ (h.bucketAt (h.idx k)).map Prod.fst := by
        rw [← LinkedList.get_eq_none_iff]
        cases hx : LinkedList.get (h.bucketAt (h.idx k)) k
        · rfl
        · rw [hx] at hex
          exact absurd rfl hex
      refine hb.1.append (List.nodup_singleton _) ?_
      intro a ha hak
      rw [List.mem_singleton.mp hak] at ha
      exact hknot ha
    · intro kv hkv
      rcases List.mem_append.mp hkv with hmem | hmem
      · exact hb.2 kv hmem
      · have hkv' : kv = (k, v) := by simpa using hmem
        rw [hkv']
        rfl

theorem get_remove_self (h : HashTable α) (hWF : h.WF) (k : String) :
    (h.remove k).get k = none := by
  obtain ⟨hlen, hpos, hbk⟩ := hWF
  have hi : h.idx k < h.table.length := by rw [hlen]; exact idx_lt_size h hpos k
  unfold get remove
  show LinkedList.get ((h.table.set (h.idx k) _).getD (h.idx k) []) k = none
  rw [getD_set_self _ _ _ _ hi]
  exact LinkedList.getRemoveSelf _ _ (hbk (h.idx k) (idx_lt_size h hpos k)).1

theorem get_remove_ne (h : HashTable α) (k k' : String) (hne : k' ≠ k) :
    (h.remove k).get k' = h.get k' := by
  unfold get remove
  show LinkedList.get ((h.table.set (h.idx k) _).getD (h.idx k') []) k' = _
  by_cases hsame : h.idx k' = h.idx k
  · by_cases hi : h.idx k < h.table.length
    · rw [hsame, getD_set_self _ _ _ _ hi, LinkedList.getRemoveNe _ _ _ hne]
    · rw [List.set_eq_of_length_le (Nat.le_of_not_lt hi)]
      rfl
  · rw [getD_set_ne _ _ _ _ _ (fun hh => hsame hh.symm)]
    rfl

theorem WF_remove (h : HashTable α) (hWF : h.WF) (k : String) : (h.remove k).WF := by
  have hWF' := hWF
  obtain ⟨hlen, hpos, hbk⟩ := hWF'
  have hb := hbk (h.idx k) (idx_lt_size h hpos k)
  unfold remove
  refine WF_set_bucket h hWF _ _ ?_ ?_
  · exact hb.1.sublist ((LinkedList.remove_sublist _ _).map Prod.fst)
  · intro kv hkv
    exact hb.2 kv ((LinkedList.remove_sublist _ _).mem hkv)

theorem flatten_set_append_perm {β : Type} :
    ∀ (L : List (List β)) (i : Nat) (x : β), i < L.length →
      List.Perm (L.set i ((L.getD i []) ++ [x])).flatten (x :: L.flatten)
  | [], i, x, hi => by simp at hi
  | c :: t, 0, x, _ => by
    simp only [List.set_cons_zero, List.getD_cons_zero, List.flatten_cons,
      List.append_assoc, List.singleton_append]
    exact List.perm_middle
  | c :: t, i + 1, x, hi => by
    simp only [List.set_cons_succ, List.getD_cons_succ, List.flatten_cons]
    have ih := flatten_set_append_perm t i x (by simpa using hi)
    exact (ih.append_left c).trans List.perm_middle

theorem flatten_set_sublist {β : Type} :
    ∀ (L : List (List β)) (i : Nat) (b : List β), List.Sublist b (L.getD i []) →
      List.Sublist (L.set i b).flatten L.flatten
  | [], _, b, hb => by
    simp at hb
    simp [hb]
  | c :: t, 0, b, hb => by
    simp only [List.set_cons_zero, List.getD_cons_zero, List.flatten_cons] at hb ⊢
    exact hb.append (List.Sublist.refl _)
  | c :: t, i + 1, b, hb => by
    simp only [List.set_cons_succ, List.getD_cons_succ, List.flatten_cons] at hb ⊢
    exact ((flatten_set_sublist t i b hb).append_left c)

theorem pairs_insert_perm (h : HashTable α) (hWF : h.WF) (k : String) (v : α)
    (hnone : h.get k = none) :
    List.Perm (h.insert k v).pairs ((k, v) :: h.pairs) := by
  obtain ⟨hlen, hpos, _⟩ := hWF
  have hi : h.idx k < h.table.length := hlen ▸ idx_lt_size h hpos k
  have hex : ¬ (LinkedList.get (h.bucketAt (h.idx k)) k).isSome = true := by
    rw [show LinkedList.get (h.bucketAt (h.idx k)) k = h.get k from rfl, hnone]
    simp
  unfold pairs
  rw [table_insert, if_neg hex]
  exact flatten_set_append_perm h.table (h.idx k) (k, v) hi

theorem pairs_remove_sublist (h : HashTable α) (k : String) :
    List.Sublist (h.remove k).pairs h.pairs := by
  unfold pairs remove
  exact flatten_set_sublist h.table (h.idx k) _ (LinkedList.remove_sublist _ _)

theorem keys_nodup (h : HashTable α) (hWF : h.WF) : (h.pairs.map Prod.fst).Nodup := by
  obtain ⟨hlen, hpos, hbk⟩ := hWF
  unfold pairs
  rw [List.map_flatten]
  rw [List.nodup_flatten]
  constructor
  · intro l hl
    obtain ⟨b, hb, hbl⟩ := List.mem_map.mp hl
    obtain ⟨i, hi, hbi⟩ := List.getElem_of_mem hb
    have hisize : i < h.size := hlen ▸ hi
    have : b = h.bucketAt i := by rw [bucketAt, getD_eq_getElem _ _ _ hi, hbi]
    rw [← hbl, this]
    exact (hbk i hisize).1
  · rw [List.pairwise_iff_getElem]
    intro i j hi hj hij
    simp only [List.length_map] at hi hj
    intro a hai haj
    rw [List.getElem_map] at hai haj
    obtain ⟨kvi, hkvi, hei⟩ := List.mem_map.mp hai
    obtain ⟨kvj, hkvj, hej⟩ := List.mem_map.mp haj
    have hbi : h.table[i] = h.bucketAt i := by rw [bucketAt, getD_eq_getElem _ _ _ hi]
    have hbj : h.table[j] = h.bucketAt j := by rw [bucketAt, getD_eq_getElem _ _ _ hj]
    have h1 := (hbk i (hlen ▸ hi)).2 kvi (hbi ▸ hkvi)
    have h2 := (hbk j (hlen ▸ hj)).2 kvj (hbj ▸ hkvj)
    rw [hei] at h1
    rw [hej] at h2
    rw [h1] at h2
    exact absurd h2 (Nat.ne_of_lt hij)

theorem get_eq_some_iff_mem_pairs (h : HashTable α) (hWF : h.WF) (k : String) (v : α) :
    h.get k = some v ↔ (k, v) ∈ h.pairs := by
  obtain ⟨hlen, hpos, hbk⟩ := hWF
  constructor
  · intro hg
    have hb := hbk (h.idx k) (idx_lt_size h hpos k)
    have hmem : (k, v) ∈ h.bucketAt (h.idx k) :=
      (LinkedList.get_eq_some_iff_mem _ _ _ hb.1).mp hg
    unfold pairs
    rw [List.mem_flatten]
    refine ⟨h.bucketAt (h.idx k), ?_, hmem⟩
    have hi : h.idx k < h.table.length := hlen ▸ idx_lt_size h hpos k
    rw [bucketAt, getD_eq_getElem _ _ _ hi]
    exact h.table.getElem_mem hi
  · intro hmem
    unfold pairs at hmem
    rw [List.mem_flatten] at hmem
    obtain ⟨b, hbmem, hkv⟩ := hmem
    obtain ⟨i, hi, hbi⟩ := List.getElem_of_mem hbmem
    have hisize : i < h.size := hlen ▸ hi
    have hbeq : b = h.bucketAt i := by rw [bucketAt, getD_eq_getElem _ _ _ hi, hbi]
    have hhash : hashStr k h.size = i := (hbk i hisize).2 (k, v) (hbeq ▸ hkv)
    unfold get
    have hidx : h.idx k = i := hhash
    rw [hidx]
    exact (LinkedList.get_eq_some_iff_mem _ _ _ (hbk i hisize).1).mpr (hbeq ▸ hkv)

theorem get_eq_none_iff_pairs (h : HashTable α) (hWF : h.WF) (k : String) :
    h.get k = none ↔ k ∉ h.pairs.map Prod.fst := by
  constructor
  · intro hg hmem
    obtain ⟨⟨k', v⟩, hkv, he⟩ := List.mem_map.mp hmem
    have hkv' : (k, v) ∈ h.pairs := by
      have hke : k' = k := he
      rw [← hke]
      exact hkv
    rw [(get_eq_some_iff_mem_pairs h hWF k v).mpr hkv'] at hg
    exact Option.noConfusion hg
  · intro hmem
    cases hg : h.get k with
    | none => rfl
    | some v =>
      exact absurd (List.mem_map_of_mem Prod.fst
        ((get_eq_some_iff_mem_pairs h hWF k v).mp hg)) hmem

/-- Number of table entries under a given key. -/
def countKey (h : HashTable α) (k : String) : Nat :=
  (h.pairs.map Prod.fst).count k

theorem countKey_eq_one_of_get (h : HashTable α) (hWF : h.WF) (k : String) (v : α)
    (hget : h.get k = some v) : h.countKey k = 1 := by
  have hnd := keys_nodup h hWF
  have hmem : k ∈ h.pairs.map Prod.fst :=
    List.mem_map_of_mem Prod.fst ((get_eq_some_iff_mem_pairs h hWF k v).mp hget)
  exact List.count_eq_one_of_mem hnd hmem

/-- Fold of `remove` over a list of keys (cascading delete loops). -/
def removeList (h : HashTable α) (ks : List String) : HashTable α :=
  ks.foldl remove h

theorem WF_removeList (h : HashTable α) (hWF : h.WF) (ks : List String) :
    (removeList h ks).WF := by
  induction ks generalizing h with
  | nil => exact hWF
  | cons k t ih => exact ih _ (WF_remove h hWF k)

theorem get_removeList (h : HashTable α) (hWF : h.WF) (ks : List String) (k : String) :
    (removeList h ks).get k = if k ∈ ks then none else h.get k := by
  induction ks generalizing h with
  | nil => simp [removeList]
  | cons k0 t ih =>
    show (removeList (h.remove k0) t).get k = _
    rw [ih _ (WF_remove h hWF k0)]
    by_cases hk : k = k0
    · subst hk
      by_cases hmem : k ∈ t
      · simp [hmem]
      · simp [hmem, get_remove_self h hWF k]
    · by_cases hmem : k ∈ t
      · simp [hmem, hk]
      · simp [hmem, hk, get_remove_ne h k0 k hk]

theorem pairs_removeList_sublist (h : HashTable α) (ks : List String) :
    List.Sublist (removeList h ks).pairs h.pairs := by
  induction ks generalizing h with
  | nil => exact List.Sublist.refl _
  | cons k t ih =>
    exact (ih (h.remove k)).trans (pairs_remove_sublist h k)

/-- Every stored record carries its own key in field `f` (maintained by all
the route handlers, which always insert a record under its `id`). -/
def KeyedBy (h : HashTable α) (f : α → String) : Prop :=
  ∀ kv ∈ h.pairs, f kv.2 = kv.1

instance (h : HashTable α) (f : α → String) : Decidable (h.KeyedBy f) := by
  unfold KeyedBy
  infer_instance

theorem mem_get_all_iff (h : HashTable α) (v : α) :
    v ∈ h.get_all ↔ ∃ k, (k, v) ∈ h.pairs := by
  rw [get_all_eq_map_pairs]
  constructor
  · intro hv
    obtain ⟨⟨k, v'⟩, hkv, he⟩ := List.mem_map.mp hv
    simp only at he
    subst he
    exact ⟨k, hkv⟩
  · rintro ⟨k, hkv⟩
    exact List.mem_map_of_mem Prod.snd hkv

theorem get_of_mem_get_all (h : HashTable α) (hWF : h.WF) (f : α → String)
    (hkey : h.KeyedBy f) (v : α) (hv : v ∈ h.get_all) : h.get (f v) = some v := by
  obtain ⟨k, hkv⟩ := (mem_get_all_iff h v).mp hv
  have : f v = k := hkey (k, v) hkv
  rw [this]
  exact (get_eq_some_iff_mem_pairs h hWF k v).mpr hkv

theorem get_all_insert_perm (h : HashTable α) (hWF : h.WF) (k : String) (v : α)
    (hnone : h.get k = none) :
    List.Perm (h.insert k v).get_all (v :: h.get_all) := by
  rw [get_all_eq_map_pairs, get_all_eq_map_pairs]
  exact (pairs_insert_perm h hWF k v hnone).map Prod.snd

end HashTable

/-! ### Domain records (the dict shapes built by the route handlers) -/

structure User where
  id : String
  username : String
  email : String
  password : String
  profilePic : String
  created_at : Nat
deriving DecidableEq, Repr

structure Friendship where
  id : String
  user1Id : String
  user2Id : String
  created_at : Nat
deriving DecidableEq, Repr

structure FriendRequest where
  id : String
  senderId : String
  receiverId : String
  status : String
  created_at : Nat
deriving DecidableEq, Repr

structure Message where
  id : String
  senderId : String
  receiverId : String
  content : String
  timestamp : Nat
deriving DecidableEq, Repr

structure MessageStatus where
  id : String
  messageId : String
  seen : Bool
  seenAt : Option Nat
deriving DecidableEq, Repr

structure Notification where
  id : String
  type : String
  senderId : Option String
  senderName : Option String
  receiverId : String
  content : String
  read : Bool
  timestamp : Nat
deriving DecidableEq, Repr

/-- The module-level stores of `app.py` plus the presence map
(`online_users : user_id -> socket id`). -/
structure AppState where
  users : HashTable User
  messages : HashTable Message
  friend_requests : HashTable FriendRequest
  friends : HashTable Friendship
  notifications : HashTable Notification
  online_users : List (String × String)
  message_status : HashTable MessageStatus
deriving DecidableEq

/-- Process start: every store a fresh 100-bucket table, nobody online. -/
def initialState : AppState :=
  ⟨HashTable.empty User, HashTable.empty Message, HashTable.empty FriendRequest,
   HashTable.empty Friendship, HashTable.empty Notification, [],
   HashTable.empty MessageStatus⟩

/-- `user_id in online_users`. -/
def isOnline (s : AppState) (uid : String) : Bool :=
  (s.online_users.lookup uid).isSome

/-- `'online' if uid in online_users else 'offline'`. -/
def presenceOf (s : AppState) (uid : String) : String :=
  if isOnline s uid then "online" else "offline"

/-- The summary dict returned for a friend / search hit / pending request. -/
structure FriendSummary where
  id : String
  username : String
  profilePic : String
  status : String
deriving DecidableEq, Repr

/-- Outbound socket emissions, addressed by recipient user id (the source
emits to the room `online_users[uid]`). -/
inductive Event where
  | message_seen (toUser : String) (messageId : String) (seenAt : Nat)
  | notif_push (toUser : String) (n : Notification)
  | friend_req_push (toUser : String) (senderId : String)
  | message_push (toUser : String) (m : Message)
deriving DecidableEq, Repr

/-! ### Route handlers as pure state transformers.
`datetime.now()` values and generated uuids enter as parameters; token
authentication resolves `current_user` outside the core, so the handlers
take the caller's `User` record directly. -/

/-- `register` (`POST /api/auth/register`).  A missing or empty field is
falsy in the source's `not data.get(...)` guard; the password hash is
computed by the (out of scope) hashing collaborator. -/
def register (s : AppState) (now : Nat) (user_id : String)
    (username email password_hash : String) : Except Err (AppState × User) :=
  if username = "" ∨ email = "" ∨ password_hash = "" then .error .invalidInput
  else if (s.users.get_all).any (fun u => u.email == email) then .error .duplicate
  else
    let new_user : User := ⟨user_id, username, email, password_hash, "", now⟩
    .ok ({ s with users := s.users.insert user_id new_user }, new_user)

/-- The email scan `login` performs over `users.get_all()`: the first user
in traversal order with the given email. -/
def findByEmail (s : AppState) (email : String) : Option User :=
  (s.users.get_all).find? (fun u => u.email == email)

/-- `update_profile` (`PUT /api/users/profile`): a field is overwritten only
when the corresponding key is present in the request body. -/
def update_profile (s : AppState) (current : User)
    (username? : Option String) (profilePic? : Option String) : AppState :=
  let u1 := match username? with
    | some un => { current with username := un }
    | none => current
  let u2 := match profilePic? with
    | some p => { u1 with profilePic := p }
    | none => u1
  { s with users := s.users.insert u2.id u2 }

/-- `delete_account` (`POST /api/auth/delete-account`), after password
verification: removes matching friendships, friend requests, messages with
their statuses, notifications received by the user, the presence entry, and
finally the user record. -/
def delete_account (s : AppState) (current : User) : AppState :=
  let user_id := current.id
  let fr := (s.friends.get_all).foldl
    (fun t f => if f.user1Id = user_id ∨ f.user2Id = user_id then t.remove f.id else t)
    s.friends
  let rq := (s.friend_requests.get_all).foldl
    (fun t r => if r.senderId = user_id ∨ r.receiverId = user_id then t.remove r.id else t)
    s.friend_requests
  let msNew := (s.messages.get_all).foldl
    (fun (pr : HashTable Message × HashTable MessageStatus) m =>
      if m.senderId = user_id ∨ m.receiverId = user_id then
        (pr.1.remove m.id, pr.2.remove m.id)
      else pr)
    (s.messages, s.message_status)
  let nt := (s.notifications.get_all).foldl
    (fun t n => if n.receiverId = user_id then t.remove n.id else t)
    s.notifications
  { users := s.users.remove user_id,
    messages := msNew.1,
    friend_requests := rq,
    friends := fr,
    notifications := nt,
    online_users := s.online_users.filter (fun p => p.1 != user_id),
    message_status := msNew.2 }

/-- `send_friend_request` (`POST /api/friends/request`). -/
def send_friend_request (s : AppState) (now : Nat) (notif_id : String)
    (current : User) (receiver_id : String) : Except Err (AppState × List Event) :=
  if receiver_id = "" then .error .invalidInput
  else match s.users.get receiver_id with
  | none => .error .notFound
  | some _ =>
    if (s.friend_requests.get (current.id ++ "_" ++ receiver_id)).isSome then
      .error .duplicate
    else if (s.friends.get (current.id ++ "_" ++ receiver_id)).isSome ∨
        (s.friends.get (receiver_id ++ "_" ++ current.id)).isSome then
      .error .conflict
    else
      let request_id := current.id ++ "_" ++ receiver_id
      let new_request : FriendRequest := ⟨request_id, current.id, receiver_id, "pending", now⟩
      let new_notification : Notification :=
        ⟨notif_id, "friend_request", some current.id, some current.username, receiver_id,
         current.username ++ " sent you a friend request", false, now⟩
      let evs := if isOnline s receiver_id then
          [Event.friend_req_push receiver_id current.id,
           Event.notif_push receiver_id new_notification]
        else []
      .ok ({ s with
              friend_requests := s.friend_requests.insert request_id new_request,
              notifications := s.notifications.insert notif_id new_notification }, evs)

/-- `accept_friend_request` (`POST /api/friends/accept/<user_id>`). -/
def accept_friend_request (s : AppState) (now : Nat) (nid1 nid2 : String)
    (current : User) (user_id : String) :
    Except Err (FriendSummary × AppState × List Event) :=
  match s.friend_requests.get (user_id ++ "_" ++ current.id) with
  | none => .error .notFound
  | some _ =>
    match s.users.get user_id with
    | none => .error .notFound
    | some sender =>
      let friendship_id := current.id ++ "_" ++ user_id
      let new_friendship : Friendship := ⟨friendship_id, current.id, user_id, now⟩
      let n1 : Notification :=
        ⟨nid1, "system", none, none, current.id,
         "You are now friends with " ++ sender.username, false, now⟩
      let n2 : Notification :=
        ⟨nid2, "system", none, none, user_id,
         current.username ++ " accepted your friend request", false, now⟩
      let evs := if isOnline s user_id then [Event.notif_push user_id n2] else []
      let friend_data : FriendSummary :=
        ⟨user_id, sender.username, sender.profilePic, presenceOf s user_id⟩
      .ok (friend_data,
        { s with
          friends := s.friends.insert friendship_id new_friendship,
          friend_requests := s.friend_requests.remove (user_id ++ "_" ++ current.id),
          notifications := (s.notifications.insert nid1 n1).insert nid2 n2 },
        evs)

/-- One loop step of `get_friends`: the summary a friendship record
contributes for `uid`, if any. -/
def friendView (s : AppState) (uid : String) (f : Friendship) : Option FriendSummary :=
  if f.user1Id = uid ∨ f.user2Id = uid then
    match s.users.get (if f.user1Id = uid then f.user2Id else f.user1Id) with
    | some fr => some ⟨fr.id, fr.username, fr.profilePic, presenceOf s fr.id⟩
    | none => none
  else none

/-- The append-if-contributing loop body shared by the handler list
builders (`user_friends.append(...)` under a condition). -/
def optAppend {β γ : Type} (g : β → Option γ) (acc : List γ) (x : β) : List γ :=
  match g x with
  | some b => acc ++ [b]
  | none => acc

/-- `get_friends` (`GET /api/friends`). -/
def get_friends (s : AppState) (uid : String) : List FriendSummary :=
  (s.friends.get_all).foldl (optAppend (friendView s uid)) []

/-- `send_message` (`POST /api/messages`). -/
def send_message (s : AppState) (now : Nat) (message_id notif_id : String)
    (current : User) (receiver_id content : String) :
    Except Err (Message × AppState × List Event) :=
  if receiver_id = "" ∨ content = "" then .error .invalidInput
  else match s.users.get receiver_id with
  | none => .error .notFound
  | some _ =>
    if ¬ ((s.friends.get (current.id ++ "_" ++ receiver_id)).isSome ∨
          (s.friends.get (receiver_id ++ "_" ++ current.id)).isSome) then
      .error .forbidden
    else
      let new_message : Message := ⟨message_id, current.id, receiver_id, content, now⟩
      let new_status : MessageStatus := ⟨message_id, message_id, false, none⟩
      let new_notification : Notification :=
        ⟨notif_id, "message", some current.id, some current.username, receiver_id,
         "New message from " ++ current.username, false, now⟩
      let evs := if isOnline s receiver_id then
          [Event.message_push receiver_id new_message,
           Event.notif_push receiver_id new_notification]
        else []
      .ok (new_message,
        { s with
          messages := s.messages.insert message_id new_message,
          message_status := s.message_status.insert message_id new_status,
          notifications := s.notifications.insert notif_id new_notification },
        evs)

/-- A message dict merged with its status (`{**message, seen, seenAt}`). -/
structure MessageView where
  id : String
  senderId : String
  receiverId : String
  content : String
  timestamp : Nat
  seen : Bool
  seenAt : Option Nat
deriving DecidableEq, Repr

/-- Truthiness of `status and status['seen']`. -/
def statusSeen : Option MessageStatus → Bool
  | some st => st.seen
  | none => false

def statusSeenAt : Option MessageStatus → Option Nat
  | some st => st.seenAt
  | none => none

def viewOf (m : Message) (st? : Option MessageStatus) : MessageView :=
  ⟨m.id, m.senderId, m.receiverId, m.content, m.timestamp,
   statusSeen st?, statusSeenAt st?⟩

/-- Membership of a message in the conversation between `uid` and `fid`. -/
def inConv (uid fid : String) (m : Message) : Prop :=
  (m.senderId = uid ∧ m.receiverId = fid) ∨ (m.senderId = fid ∧ m.receiverId = uid)

instance (uid fid : String) (m : Message) : Decidable (inConv uid fid m) := by
  unfold inConv
  infer_instance

/-- The accumulating state of the `get_messages` loop: the conversation
built so far, the (mutated in place) status store, and the emissions. -/
structure MsgLoopState where
  conv : List MessageView
  mst : HashTable MessageStatus
  evs : List Event
deriving DecidableEq

/-- One iteration of the `get_messages` loop over `messages.get_all()`.
The loop reads `status = message_status.get(message['id'])` from the live
(mutated in place) store, builds the merged view from that pre-update
status, and only then overwrites the status when the message is an unseen
one from the friend. -/
def msgStep (s : AppState) (uid fid : String) (now : Nat)
    (st : MsgLoopState) (m : Message) : MsgLoopState :=
  if inConv uid fid m then
    if m.senderId = fid ∧ ¬ statusSeen (st.mst.get m.id) then
      { conv := st.conv ++ [viewOf m (st.mst.get m.id)],
        mst := st.mst.insert m.id ⟨m.id, m.id, true, some now⟩,
        evs := st.evs ++
          (if isOnline s fid then [Event.message_seen fid m.id now] else []) }
    else
      { st with conv := st.conv ++ [viewOf m (st.mst.get m.id)] }
  else st

/-- Python's stable `list.sort(key=lambda x: x['timestamp'])` ordering. -/
def tsLe (a b : MessageView) : Prop := a.timestamp ≤ b.timestamp

instance : DecidableRel tsLe := fun a b => Nat.decLe a.timestamp b.timestamp

instance : IsTotal MessageView tsLe := ⟨fun a b => Nat.le_total a.timestamp b.timestamp⟩

instance : IsTrans MessageView tsLe := ⟨fun _ _ _ hab hbc => Nat.le_trans hab hbc⟩

/-- `get_messages` (`GET /api/messages/<friend_id>`): builds the merged
conversation, marks unseen messages from the friend as seen as a side
effect, then sorts by timestamp (a stable sort, as Python's `list.sort`). -/
def get_messages (s : AppState) (now : Nat) (current : User) (friend_id : String) :
    Except Err (List MessageView × AppState × List Event) :=
  if ¬ ((s.friends.get (current.id ++ "_" ++ friend_id)).isSome ∨
        (s.friends.get (friend_id ++ "_" ++ current.id)).isSome) then
    .error .forbidden
  else
    let res := (s.messages.get_all).foldl (msgStep s current.id friend_id now)
      ⟨[], s.message_status, []⟩
    .ok (List.insertionSort tsLe res.conv, { s with message_status := res.mst }, res.evs)

/-- `delete_message` (`DELETE /api/messages/<message_id>`). -/
def delete_message (s : AppState) (current : User) (message_id : String) :
    Except Err AppState :=
  match s.messages.get message_id with
  | none => .error .notFound
  | some m =>
    if m.senderId ≠ current.id then .error .forbidden
    else .ok { s with
      messages := s.messages.remove message_id,
      message_status := s.message_status.remove message_id }

/-- `mark_message_as_seen` (`PUT /api/messages/seen/<message_id>`). -/
def mark_message_as_seen (s : AppState) (now : Nat) (current : User)
    (message_id : String) : Except Err (AppState × List Event) :=
  match s.messages.get message_id with
  | none => .error .notFound
  | some m =>
    if m.receiverId ≠ current.id then .error .forbidden
    else
      let evs := if isOnline s m.senderId then
          [Event.message_seen m.senderId message_id now]
        else []
      .ok ({ s with message_status :=
              s.message_status.insert message_id ⟨message_id, message_id, true, some now⟩ },
        evs)

/-- Python's stable descending sort key for notifications
(`sort(key=timestamp, reverse=True)`). -/
def ntGe (a b : Notification) : Prop := b.timestamp ≤ a.timestamp

instance : DecidableRel ntGe := fun a b => Nat.decLe b.timestamp a.timestamp

/-- `get_notifications` (`GET /api/notifications`): the caller's
notifications, newest first. -/
def get_notifications (s : AppState) (uid : String) : List Notification :=
  List.insertionSort ntGe
    ((s.notifications.get_all).filter (fun n => n.receiverId == uid))

/-! ### State predicates -/

/-- All six entity stores are well-formed hash tables. -/
def AppState.StoresWF (s : AppState) : Prop :=
  s.users.WF ∧ s.messages.WF ∧ s.friend_requests.WF ∧ s.friends.WF ∧
  s.notifications.WF ∧ s.message_status.WF

/-- The `Message`/`MessageStatus` pairing invariant: a status record keyed by
a message id exists exactly when the message with that id exists. -/
def StatusInv (s : AppState) : Prop :=
  ∀ k, (s.message_status.get k).isSome = (s.messages.get k).isSome

/-- Friendship records are stored under their own composite
`user1Id_user2Id` key (every code path creating a friendship does this). -/
def FriendshipKeys (h : HashTable Friendship) : Prop :=
  ∀ kv ∈ h.pairs, kv.2.id = kv.1 ∧ kv.2.id = kv.2.user1Id ++ "_" ++ kv.2.user2Id

/-! ### Generic list and fold helpers -/

theorem foldl_opt_append {β γ : Type} (g : β → Option γ) :
    ∀ (l : List β) (a : List γ),
      l.foldl (optAppend g) a = a ++ l.filterMap g
  | [], a => by simp
  | x :: t, a => by
    simp only [List.foldl_cons, List.filterMap_cons, optAppend]
    cases hg : g x with
    | some b =>
      simp only [hg, foldl_opt_append g t (a ++ [b]), List.append_assoc,
        List.singleton_append]
    | none =>
      simp only [hg, foldl_opt_append g t a]

theorem find?_eq_head_filter {β : Type} (p : β → Bool) :
    ∀ l : List β, l.find? p = (l.filter p).head?
  | [] => rfl
  | x :: t => by
    simp only [List.find?_cons, List.filter_cons]
    cases hp : p x with
    | true => rfl
    | false => exact find?_eq_head_filter p t

theorem getD_replicate_self {β : Type} (d : β) :
    ∀ (n i : Nat), (List.replicate n d).getD i d = d
  | 0, _ => rfl
  | _ + 1, 0 => rfl
  | n + 1, i + 1 => getD_replicate_self d n i

theorem HashTable.get_empty (α : Type) (n : Nat) (k : String) :
    (HashTable.empty α n).get k = none := by
  unfold HashTable.empty HashTable.get HashTable.bucketAt
  show LinkedList.get ((List.replicate n []).getD _ []) k = none
  rw [getD_replicate_self]
  rfl

/-- The conditional-remove loops of `delete_account` are `removeList` over
the keys of the matching records. -/
theorem foldl_cond_remove_eq_removeList {β γ : Type} (key : β → String)
    (p : β → Prop) [DecidablePred p] :
    ∀ (l : List β) (h : HashTable γ),
      l.foldl (fun t x => if p x then t.remove (key x) else t) h
        = HashTable.removeList h ((l.filter (fun x => decide (p x))).map key)
  | [], h => rfl
  | x :: t, h => by
    by_cases hp : p x
    · simp only [List.foldl_cons, if_pos hp, List.filter_cons, decide_eq_true hp,
        List.map_cons]
      exact foldl_cond_remove_eq_removeList key p t (h.remove (key x))
    · simp only [List.foldl_cons, if_neg hp, List.filter_cons,
        decide_eq_false hp, List.map_cons]
      exact foldl_cond_remove_eq_removeList key p t h

/-- The paired message/status remove loop of `delete_account` acts
componentwise as `removeList` with the same key list. -/
theorem foldl_pair_cond_remove {β : Type} (key : β → String)
    (p : β → Prop) [DecidablePred p] :
    ∀ (l : List β) (hm : HashTable Message) (hs : HashTable MessageStatus),
      l.foldl (fun (pr : HashTable Message × HashTable MessageStatus) x =>
          if p x then (pr.1.remove (key x), pr.2.remove (key x)) else pr) (hm, hs)
        = (HashTable.removeList hm ((l.filter (fun x => decide (p x))).map key),
           HashTable.removeList hs ((l.filter (fun x => decide (p x))).map key))
  | [], hm, hs => rfl
  | x :: t, hm, hs => by
    by_cases hp : p x
    · simp only [List.foldl_cons, if_pos hp, List.filter_cons, decide_eq_true hp,
        List.map_cons]
      exact foldl_pair_cond_remove key p t (hm.remove (key x)) (hs.remove (key x))
    · simp only [List.foldl_cons, if_neg hp, List.filter_cons,
        decide_eq_false hp, List.map_cons]
      exact foldl_pair_cond_remove key p t hm hs

/-! ### Inversion lemmas: what a successful handler call entails -/

theorem register_ok_inv (s : AppState) (now : Nat) (uid username email pw : String)
    (s' : AppState) (u : User)
    (hok : register s now uid username email pw = .ok (s', u)) :
    username ≠ "" ∧ email ≠ "" ∧ pw ≠ "" ∧
    (s.users.get_all).any (fun v => v.email == email) = false ∧
    u = ⟨uid, username, email, pw, "", now⟩ ∧
    s' = { s with users := s.users.insert uid ⟨uid, username, email, pw, "", now⟩ } := by
  unfold register at hok
  by_cases h1 : username = "" ∨ email = "" ∨ pw = ""
  · rw [if_pos h1] at hok
    exact Except.noConfusion hok
  · rw [if_neg h1] at hok
    push_neg at h1
    cases h2 : (s.users.get_all).any (fun v => v.email == email) with
    | true =>
      rw [if_pos h2] at hok
      exact Except.noConfusion hok
    | false =>
      rw [if_neg (by rw [h2]; exact Bool.false_ne_true)] at hok
      simp only [Except.ok.injEq, Prod.mk.injEq] at hok
      exact ⟨h1.1, h1.2.1, h1.2.2, rfl, hok.2.symm, hok.1.symm⟩

theorem send_friend_request_inv (s : AppState) (now : Nat) (nid : String)
    (current : User) (rid : String) (s1 : AppState) (ev1 : List Event)
    (hok : send_friend_request s now nid current rid = .ok (s1, ev1)) :
    rid ≠ "" ∧
    (s.users.get rid).isSome = true ∧
    s.friend_requests.get (current.id ++ "_" ++ rid) = none ∧
    s.friends.get (current.id ++ "_" ++ rid) = none ∧
    s.friends.get (rid ++ "_" ++ current.id) = none ∧
    s1 = { s with
      friend_requests := s.friend_requests.insert (current.id ++ "_" ++ rid)
        ⟨current.id ++ "_" ++ rid, current.id, rid, "pending", now⟩,
      notifications := s.notifications.insert nid
        ⟨nid, "friend_request", some current.id, some current.username, rid,
         current.username ++ " sent you a friend request", false, now⟩ } ∧
    ev1 = (if isOnline s rid then
        [Event.friend_req_push rid current.id,
         Event.notif_push rid ⟨nid, "friend_request", some current.id,
           some current.username, rid,
           current.username ++ " sent you a friend request", false, now⟩]
      else []) := by
  unfold send_friend_request at hok
  by_cases h0 : rid = ""
  · rw [if_pos h0] at hok
    exact Except.noConfusion hok
  · rw [if_neg h0] at hok
    cases hu : s.users.get rid with
    | none =>
      rw [hu] at hok
      exact Except.noConfusion hok
    | some recv =>
      rw [hu] at hok
      by_cases hq : (s.friend_requests.get (current.id ++ "_" ++ rid)).isSome = true
      · rw [if_pos hq] at hok
        exact Except.noConfusion hok
      · rw [if_neg hq] at hok
        by_cases hf : (s.friends.get (current.id ++ "_" ++ rid)).isSome = true ∨
            (s.friends.get (rid ++ "_" ++ current.id)).isSome = true
        · rw [if_pos hf] at hok
          exact Except.noConfusion hok
        · rw [if_neg hf] at hok
          push_neg at hf
          simp only [Except.ok.injEq, Prod.mk.injEq] at hok
          exact ⟨h0, rfl,
            Option.not_isSome_iff_eq_none.mp hq,
            Option.not_isSome_iff_eq_none.mp hf.1,
            Option.not_isSome_iff_eq_none.mp hf.2,
            hok.1.symm, hok.2.symm⟩

theorem accept_friend_request_inv (s : AppState) (now : Nat) (nid1 nid2 : String)
    (current : User) (uid : String) (fd : FriendSummary) (s2 : AppState)
    (ev : List Event)
    (hok : accept_friend_request s now nid1 nid2 current uid = .ok (fd, s2, ev)) :
    (s.friend_requests.get (uid ++ "_" ++ current.id)).isSome = true ∧
    ∃ sender, s.users.get uid = some sender ∧
      fd = ⟨uid, sender.username, sender.profilePic, presenceOf s uid⟩ ∧
      s2 = { s with
        friends := s.friends.insert (current.id ++ "_" ++ uid)
          ⟨current.id ++ "_" ++ uid, current.id, uid, now⟩,
        friend_requests := s.friend_requests.remove (uid ++ "_" ++ current.id),
        notifications := (s.notifications.insert nid1
            ⟨nid1, "system", none, none, current.id,
             "You are now friends with " ++ sender.username, false, now⟩).insert nid2
          ⟨nid2, "system", none, none, uid,
           current.username ++ " accepted your friend request", false, now⟩ } ∧
      ev = (if isOnline s uid then
          [Event.notif_push uid ⟨nid2, "system", none, none, uid,
            current.username ++ " accepted your friend request", false, now⟩]
        else []) := by
  unfold accept_friend_request at hok
  cases hr : s.friend_requests.get (uid ++ "_" ++ current.id) with
  | none =>
    rw [hr] at hok
    exact Except.noConfusion hok
  | some req =>
    rw [hr] at hok
    cases hu : s.users.get uid with
    | none =>
      rw [hu] at hok
      exact Except.noConfusion hok
    | some sender =>
      rw [hu] at hok
      simp only [Except.ok.injEq, Prod.mk.injEq] at hok
      exact ⟨rfl, sender, rfl, hok.1.symm, hok.2.1.symm, hok.2.2.symm⟩

theorem send_message_inv (s : AppState) (now : Nat) (mid nid : String)
    (current : User) (rid content : String) (m : Message) (s' : AppState)
    (ev : List Event)
    (hok : send_message s now mid nid current rid content = .ok (m, s', ev)) :
    rid ≠ "" ∧ content ≠ "" ∧ (s.users.get rid).isSome = true ∧
    ((s.friends.get (current.id ++ "_" ++ rid)).isSome = true ∨
     (s.friends.get (rid ++ "_" ++ current.id)).isSome = true) ∧
    m = ⟨mid, current.id, rid, content, now⟩ ∧
    s' = { s with
      messages := s.messages.insert mid ⟨mid, current.id, rid, content, now⟩,
      message_status := s.message_status.insert mid ⟨mid, mid, false, none⟩,
      notifications := s.notifications.insert nid
        ⟨nid, "message", some current.id, some current.username, rid,
         "New message from " ++ current.username, false, now⟩ } := by
  unfold send_message at hok
  by_cases h0 : rid = "" ∨ content = ""
  · rw [if_pos h0] at hok
    exact Except.noConfusion hok
  · rw [if_neg h0] at hok
    push_neg at h0
    cases hu : s.users.get rid with
    | none =>
      rw [hu] at hok
      exact Except.noConfusion hok
    | some recv =>
      rw [hu] at hok
      by_cases hf : ¬ ((s.friends.get (current.id ++ "_" ++ rid)).isSome = true ∨
          (s.friends.get (rid ++ "_" ++ current.id)).isSome = true)
      · rw [if_pos hf] at hok
        exact Except.noConfusion hok
      · rw [if_neg hf] at hok
        simp only [Except.ok.injEq, Prod.mk.injEq] at hok
        exact ⟨h0.1, h0.2, rfl, Decidable.not_not.mp hf,
          hok.1.symm, hok.2.1.symm⟩

theorem get_messages_inv (s : AppState) (now : Nat) (current : User)
    (fid : String) (conv : List MessageView) (s' : AppState) (ev : List Event)
    (hok : get_messages s now current fid = .ok (conv, s', ev)) :
    ((s.friends.get (current.id ++ "_" ++ fid)).isSome = true ∨
     (s.friends.get (fid ++ "_" ++ current.id)).isSome = true) ∧
    conv = List.insertionSort tsLe
      ((s.messages.get_all).foldl (msgStep s current.id fid now)
        ⟨[], s.message_status, []⟩).conv ∧
    s' = { s with message_status :=
      ((s.messages.get_all).foldl (msgStep s current.id fid now)
        ⟨[], s.message_status, []⟩).mst } ∧
    ev = ((s.messages.get_all).foldl (msgStep s current.id fid now)
        ⟨[], s.message_status, []⟩).evs := by
  unfold get_messages at hok
  by_cases hf : ¬ ((s.friends.get (current.id ++ "_" ++ fid)).isSome = true ∨
      (s.friends.get (fid ++ "_" ++ current.id)).isSome = true)
  · rw [if_pos hf] at hok
    exact Except.noConfusion hok
  · rw [if_neg hf] at hok
    simp only [Except.ok.injEq, Prod.mk.injEq] at hok
    exact ⟨Decidable.not_not.mp hf, hok.1.symm, hok.2.1.symm, hok.2.2.symm⟩

theorem delete_message_inv (s : AppState) (current : User) (mid : String)
    (s' : AppState) (hok : delete_message s current mid = .ok s') :
    ∃ m, s.messages.get mid = some m ∧ m.senderId = current.id ∧
      s' = { s with
        messages := s.messages.remove mid,
        message_status := s.message_status.remove mid } := by
  unfold delete_message at hok
  cases hm : s.messages.get mid with
  | none =>
    rw [hm] at hok
    exact Except.noConfusion hok
  | some m =>
    rw [hm] at hok
    replace hok : (if m.senderId ≠ current.id then Except.error Err.forbidden
        else Except.ok { s with
          messages := s.messages.remove mid,
          message_status := s.message_status.remove mid }) = Except.ok s' := hok
    by_cases hs : m.senderId ≠ current.id
    · rw [if_pos hs] at hok
      exact Except.noConfusion hok
    · rw [if_neg hs] at hok
      simp only [Except.ok.injEq] at hok
      exact ⟨m, rfl, Decidable.not_not.mp hs, hok.symm⟩

theorem mark_message_as_seen_inv (s : AppState) (now : Nat) (current : User)
    (mid : String) (s' : AppState) (ev : List Event)
    (hok : mark_message_as_seen s now current mid = .ok (s', ev)) :
    ∃ m, s.messages.get mid = some m ∧ m.receiverId = current.id ∧
      s' = { s with message_status :=
        s.message_status.insert mid ⟨mid, mid, true, some now⟩ } := by
  unfold mark_message_as_seen at hok
  cases hm : s.messages.get mid with
  | none =>
    rw [hm] at hok
    exact Except.noConfusion hok
  | some m =>
    rw [hm] at hok
    replace hok : (if m.receiverId ≠ current.id then Except.error Err.forbidden
        else Except.ok ({ s with message_status :=
            s.message_status.insert mid ⟨mid, mid, true, some now⟩ },
          if isOnline s m.senderId then [Event.message_seen m.senderId mid now]
          else [])) = Except.ok (s', ev) := hok
    by_cases hs : m.receiverId ≠ current.id
    · rw [if_pos hs] at hok
      exact Except.noConfusion hok
    · rw [if_neg hs] at hok
      simp only [Except.ok.injEq, Prod.mk.injEq] at hok
      exact ⟨m, rfl, Decidable.not_not.mp hs, hok.1.symm⟩

/-! ### The `get_messages` loop characterised -/

theorem msgStep_marking (s : AppState) (uid fid : String) (now : Nat)
    (st : MsgLoopState) (m : Message)
    (h1 : inConv uid fid m)
    (h2 : m.senderId = fid ∧ ¬ statusSeen (st.mst.get m.id)) :
    msgStep s uid fid now st m =
      { conv := st.conv ++ [viewOf m (st.mst.get m.id)],
        mst := st.mst.insert m.id ⟨m.id, m.id, true, some now⟩,
        evs := st.evs ++
          (if isOnline s fid then [Event.message_seen fid m.id now] else []) } := by
  unfold msgStep
  rw [if_pos h1, if_pos h2]

theorem msgStep_noMark (s : AppState) (uid fid : String) (now : Nat)
    (st : MsgLoopState) (m : Message)
    (h1 : inConv uid fid m)
    (h2 : ¬ (m.senderId = fid ∧ ¬ statusSeen (st.mst.get m.id))) :
    msgStep s uid fid now st m =
      { st with conv := st.conv ++ [viewOf m (st.mst.get m.id)] } := by
  unfold msgStep
  rw [if_pos h1, if_neg h2]

theorem msgStep_skip (s : AppState) (uid fid : String) (now : Nat)
    (st : MsgLoopState) (m : Message) (h1 : ¬ inConv uid fid m) :
    msgStep s uid fid now st m = st := by
  unfold msgStep
  rw [if_neg h1]

theorem msgStep_mst_not_marking (s : AppState) (uid fid : String) (now : Nat)
    (st : MsgLoopState) (m : Message)
    (hmk : ¬ (inConv uid fid m ∧ m.senderId = fid ∧
      ¬ statusSeen (st.mst.get m.id))) :
    (msgStep s uid fid now st m).mst = st.mst := by
  by_cases h1 : inConv uid fid m
  · by_cases h2 : m.senderId = fid ∧ ¬ statusSeen (st.mst.get m.id)
    · exact absurd ⟨h1, h2.1, h2.2⟩ hmk
    · rw [msgStep_noMark s uid fid now st m h1 h2]
  · rw [msgStep_skip s uid fid now st m h1]

theorem msgLoop_mst_WF (s : AppState) (uid fid : String) (now : Nat) :
    ∀ (l : List Message) (st0 : MsgLoopState), st0.mst.WF →
      ((l.foldl (msgStep s uid fid now) st0).mst).WF
  | [], _, h => h
  | m :: t, st0, h => by
    rw [List.foldl_cons]
    refine msgLoop_mst_WF s uid fid now t _ ?_
    by_cases h1 : inConv uid fid m
    · by_cases h2 : m.senderId = fid ∧ ¬ statusSeen (st0.mst.get m.id)
      · rw [msgStep_marking s uid fid now st0 m h1 h2]
        exact HashTable.WF_insert _ h _ _
      · rw [msgStep_noMark s uid fid now st0 m h1 h2]
        exact h
    · rw [msgStep_skip s uid fid now st0 m h1]
      exact h

theorem msgLoop_mst_get (s : AppState) (uid fid : String) (now : Nat) :
    ∀ (l : List Message) (st0 : MsgLoopState), st0.mst.WF →
      (l.map Message.id).Nodup → ∀ k,
      ((l.foldl (msgStep s uid fid now) st0).mst).get k =
        if ∃ m ∈ l, m.id = k ∧ inConv uid fid m ∧ m.senderId = fid ∧
            ¬ statusSeen (st0.mst.get m.id)
        then some ⟨k, k, true, some now⟩
        else st0.mst.get k
  | [], st0, _, _, k => by simp
  | m0 :: t, st0, hWF, hnd, k => by
    rw [List.foldl_cons]
    simp only [List.map_cons, List.nodup_cons] at hnd
    obtain ⟨hm0nin, hndt⟩ := hnd
    by_cases hmk : inConv uid fid m0 ∧ m0.senderId = fid ∧
        ¬ statusSeen (st0.mst.get m0.id)
    · rw [msgStep_marking s uid fid now st0 m0 hmk.1 ⟨hmk.2.1, hmk.2.2⟩]
      rw [msgLoop_mst_get s uid fid now t _ (HashTable.WF_insert _ hWF _ _) hndt k]
      dsimp only
      by_cases hk : k = m0.id
      · subst hk
        have hc1 : ¬ (∃ m ∈ t, m.id = m0.id ∧ inConv uid fid m ∧ m.senderId = fid ∧
            ¬ statusSeen ((st0.mst.insert m0.id
              ⟨m0.id, m0.id, true, some now⟩).get m.id)) := by
          rintro ⟨m, hmem, hid, _⟩
          exact hm0nin (hid ▸ List.mem_map_of_mem Message.id hmem)
        have hc2 : ∃ m ∈ m0 :: t, m.id = m0.id ∧ inConv uid fid m ∧
            m.senderId = fid ∧ ¬ statusSeen (st0.mst.get m.id) :=
          ⟨m0, List.mem_cons_self _ _, rfl, hmk.1, hmk.2.1, hmk.2.2⟩
        rw [if_neg hc1, if_pos hc2]
        exact HashTable.get_insert_self _ hWF _ _
      · have hS1k : (st0.mst.insert m0.id ⟨m0.id, m0.id, true, some now⟩).get k =
            st0.mst.get k := HashTable.get_insert_ne _ hWF _ _ _ hk
        have hiff : (∃ m ∈ t, m.id = k ∧ inConv uid fid m ∧ m.senderId = fid ∧
            ¬ statusSeen ((st0.mst.insert m0.id
              ⟨m0.id, m0.id, true, some now⟩).get m.id)) ↔
            (∃ m ∈ m0 :: t, m.id = k ∧ inConv uid fid m ∧ m.senderId = fid ∧
            ¬ statusSeen (st0.mst.get m.id)) := by
          constructor
          · rintro ⟨m, hmem, hid, hin, hsd, hns⟩
            refine ⟨m, List.mem_cons_of_mem _ hmem, hid, hin, hsd, ?_⟩
            rw [hid] at hns ⊢
            rwa [hS1k] at hns
          · rintro ⟨m, hmem, hid, hin, hsd, hns⟩
            rcases List.mem_cons.mp hmem with he | hmem'
            · exact absurd (he ▸ hid : m0.id = k).symm hk
            · refine ⟨m, hmem', hid, hin, hsd, ?_⟩
              rw [hid] at hns ⊢
              rwa [hS1k]
        rw [if_congr hiff rfl rfl, hS1k]
    · have hmst := msgStep_mst_not_marking s uid fid now st0 m0 hmk
      rw [msgLoop_mst_get s uid fid now t _ (by rw [hmst]; exact hWF) hndt k, hmst]
      have hiff : (∃ m ∈ t, m.id = k ∧ inConv uid fid m ∧ m.senderId = fid ∧
          ¬ statusSeen (st0.mst.get m.id)) ↔
          (∃ m ∈ m0 :: t, m.id = k ∧ inConv uid fid m ∧ m.senderId = fid ∧
          ¬ statusSeen (st0.mst.get m.id)) := by
        constructor
        · rintro ⟨m, hmem, hp⟩
          exact ⟨m, List.mem_cons_of_mem _ hmem, hp⟩
        · rintro ⟨m, hmem, hp⟩
          rcases List.mem_cons.mp hmem with he | hmem'
          · subst he
            exact absurd ⟨hp.2.1, hp.2.2.1, hp.2.2.2⟩ hmk
          · exact ⟨m, hmem', hp⟩
      rw [if_congr hiff rfl rfl]

theorem filterConsPos {α : Type} (p : α → Bool) (a : α) (l : List α)
    (h : p a = true) : (a :: l).filter p = a :: l.filter p := by
  rw [List.filter_cons, if_pos h]

theorem filterConsNeg {α : Type} (p : α → Bool) (a : α) (l : List α)
    (h : p a = false) : (a :: l).filter p = l.filter p := by
  rw [List.filter_cons, h]
  simp

theorem msgLoop_conv (s : AppState) (uid fid : String) (now : Nat) :
    ∀ (l : List Message) (st0 : MsgLoopState), st0.mst.WF →
      (l.map Message.id).Nodup →
      (l.foldl (msgStep s uid fid now) st0).conv =
        st0.conv ++ (l.filter (fun m => decide (inConv uid fid m))).map
          (fun m => viewOf m (st0.mst.get m.id))
  | [], st0, _, _ => by simp
  | m0 :: t, st0, hWF, hnd => by
    rw [List.foldl_cons]
    simp only [List.map_cons, List.nodup_cons] at hnd
    obtain ⟨hm0nin, hndt⟩ := hnd
    by_cases h1 : inConv uid fid m0
    · by_cases h2 : m0.senderId = fid ∧ ¬ statusSeen (st0.mst.get m0.id)
      · rw [msgStep_marking s uid fid now st0 m0 h1 h2]
        rw [msgLoop_conv s uid fid now t _ (HashTable.WF_insert _ hWF _ _) hndt]
        dsimp only
        have hmapeq : (t.filter (fun m => decide (inConv uid fid m))).map
            (fun m => viewOf m ((st0.mst.insert m0.id
              ⟨m0.id, m0.id, true, some now⟩).get m.id)) =
            (t.filter (fun m => decide (inConv uid fid m))).map
            (fun m => viewOf m (st0.mst.get m.id)) := by
          refine List.map_congr_left ?_
          intro m hmem
          have hmt : m ∈ t := List.mem_of_mem_filter hmem
          have hne : m.id ≠ m0.id :=
            fun he => hm0nin (he ▸ List.mem_map_of_mem Message.id hmt)
          rw [HashTable.get_insert_ne _ hWF _ _ _ hne]
        rw [hmapeq,
          filterConsPos (fun m => decide (inConv uid fid m)) m0 t (decide_eq_true h1),
          List.map_cons, List.append_assoc, List.singleton_append]
      · rw [msgStep_noMark s uid fid now st0 m0 h1 h2]
        rw [msgLoop_conv s uid fid now t
          { st0 with conv := st0.conv ++ [viewOf m0 (st0.mst.get m0.id)] } hWF hndt]
        dsimp only
        rw [filterConsPos (fun m => decide (inConv uid fid m)) m0 t (decide_eq_true h1),
          List.map_cons, List.append_assoc, List.singleton_append]
    · rw [msgStep_skip s uid fid now st0 m0 h1,
        msgLoop_conv s uid fid now t st0 hWF hndt,
        filterConsNeg (fun m => decide (inConv uid fid m)) m0 t (decide_eq_false h1)]

theorem msgLoop_evs (s : AppState) (uid fid : String) (now : Nat) :
    ∀ (l : List Message) (st0 : MsgLoopState), st0.mst.WF →
      (l.map Message.id).Nodup →
      (l.foldl (msgStep s uid fid now) st0).evs =
        st0.evs ++ (if isOnline s fid then
          (l.filter (fun m => decide (inConv uid fid m ∧ m.senderId = fid ∧
            ¬ statusSeen (st0.mst.get m.id)))).map
            (fun m => Event.message_seen fid m.id now)
        else [])
  | [], st0, _, _ => by
    cases h : isOnline s fid <;> simp [h]
  | m0 :: t, st0, hWF, hnd => by
    rw [List.foldl_cons]
    simp only [List.map_cons, List.nodup_cons] at hnd
    obtain ⟨hm0nin, hndt⟩ := hnd
    by_cases hmk : inConv uid fid m0 ∧ m0.senderId = fid ∧
        ¬ statusSeen (st0.mst.get m0.id)
    · rw [msgStep_marking s uid fid now st0 m0 hmk.1 ⟨hmk.2.1, hmk.2.2⟩]
      rw [msgLoop_evs s uid fid now t _ (HashTable.WF_insert _ hWF _ _) hndt]
      dsimp only
      have hfilter : (t.filter (fun m => decide (inConv uid fid m ∧ m.senderId = fid ∧
          ¬ statusSeen ((st0.mst.insert m0.id
            ⟨m0.id, m0.id, true, some now⟩).get m.id)))) =
          (t.filter (fun m => decide (inConv uid fid m ∧ m.senderId = fid ∧
          ¬ statusSeen (st0.mst.get m.id)))) := by
        refine List.filter_congr ?_
        intro m hmt
        have hne : m.id ≠ m0.id :=
          fun he => hm0nin (he ▸ List.mem_map_of_mem Message.id hmt)
        rw [HashTable.get_insert_ne _ hWF _ _ _ hne]
      rw [hfilter,
        filterConsPos (fun m => decide (inConv uid fid m ∧ m.senderId = fid ∧
          ¬ statusSeen (st0.mst.get m.id))) m0 t (decide_eq_true hmk)]
      cases hon : isOnline s fid
      · simp
      · simp [List.append_assoc]
    · have hmst := msgStep_mst_not_marking s uid fid now st0 m0 hmk
      have hevs : (msgStep s uid fid now st0 m0).evs = st0.evs := by
        by_cases h1 : inConv uid fid m0
        · by_cases h2 : m0.senderId = fid ∧ ¬ statusSeen (st0.mst.get m0.id)
          · exact absurd ⟨h1, h2.1, h2.2⟩ hmk
          · rw [msgStep_noMark s uid fid now st0 m0 h1 h2]
        · rw [msgStep_skip s uid fid now st0 m0 h1]
      rw [msgLoop_evs s uid fid now t (msgStep s uid fid now st0 m0)
          (by rw [hmst]; exact hWF) hndt, hmst, hevs,
        filterConsNeg (fun m => decide (inConv uid fid m ∧ m.senderId = fid ∧
          ¬ statusSeen (st0.mst.get m.id))) m0 t (decide_eq_false hmk)]

/-! ### Claims -/

/-- **C8.** For every associative-store state (well-formed, as every store
the app builds is), key `k` and value `v`: after `put(k,v)`
(`HashTable.insert`), `get k` returns `v` whether or not `k` was already
present; the store holds exactly one entry under `k` afterwards (an
existing binding is overwritten in place, no second entry appears); and
`get k'` for every other key `k'` returns what it returned before. -/
theorem C8_store_put_get {α : Type} (h : HashTable α) (hWF : h.WF)
    (k : String) (v : α) :
    (h.insert k v).get k = some v ∧
    (h.insert k v).countKey k = 1 ∧
    ∀ k', k' ≠ k → (h.insert k v).get k' = h.get k' := by
  refine ⟨HashTable.get_insert_self h hWF k v, ?_,
    fun k' hk' => HashTable.get_insert_ne h hWF k k' v hk'⟩
  exact HashTable.countKey_eq_one_of_get _ (HashTable.WF_insert h hWF k v) k v
    (HashTable.get_insert_self h hWF k v)

/-- Witness for C8 at a concrete 5-bucket store holding keys "a" and "b":
inserting again at the present key "a" overwrites in place. -/
theorem C8_store_put_get_witness :
    (((HashTable.empty Nat 5).insert "a" 1).insert "b" 2).WF ∧
    ((((HashTable.empty Nat 5).insert "a" 1).insert "b" 2).insert "a" 7).get "a"
      = some 7 ∧
    ((((HashTable.empty Nat 5).insert "a" 1).insert "b" 2).insert "a" 7).countKey "a"
      = 1 ∧
    ((((HashTable.empty Nat 5).insert "a" 1).insert "b" 2).insert "a" 7).get "b"
      = some 2 := by
  have hWF : (((HashTable.empty Nat 5).insert "a" 1).insert "b" 2).WF := by decide
  obtain ⟨h1, h2, h3⟩ :=
    C8_store_put_get (((HashTable.empty Nat 5).insert "a" 1).insert "b" 2) hWF "a" 7
  refine ⟨hWF, h1, h2, ?_⟩
  rw [h3 "b" (by decide)]
  decide

/-! ### Concrete fixture states for witnesses and counterexamples -/

def userA : User := ⟨"A", "alice", "a@x", "pw", "", 0⟩

def userB : User := ⟨"B", "bob", "b@x", "pw", "", 1⟩

def baseUsers : HashTable User :=
  ((HashTable.empty User).insert "A" userA).insert "B" userB

def sUsers : AppState := { initialState with users := baseUsers }

def friendshipBA : Friendship := ⟨"B_A", "B", "A", 5⟩

def sFriends : AppState :=
  { sUsers with friends := (HashTable.empty Friendship).insert "B_A" friendshipBA }

def msg1 : Message := ⟨"m1", "B", "A", "hi", 6⟩

def sMsg : AppState :=
  { sFriends with
    messages := (HashTable.empty Message).insert "m1" msg1,
    message_status :=
      (HashTable.empty MessageStatus).insert "m1" ⟨"m1", "m1", false, none⟩ }

/-- **C9.** `update_profile` overwrites only the provided fields: the record
stored under the user's id keeps `id`, `email`, `password` and `created_at`
unchanged, takes `username`/`profilePic` from the request exactly when the
field is present, and every other key of the user store (and the other
collections) is untouched. -/
theorem C9_update_profile_frame (s : AppState) (hWF : s.users.WF)
    (current : User) (username? profilePic? : Option String) :
    (update_profile s current username? profilePic?).users.get current.id =
      some { current with
        username := username?.getD current.username,
        profilePic := profilePic?.getD current.profilePic } ∧
    (∀ k, k ≠ current.id →
      (update_profile s current username? profilePic?).users.get k = s.users.get k) ∧
    (update_profile s current username? profilePic?).messages = s.messages ∧
    (update_profile s current username? profilePic?).friends = s.friends := by
  cases username? <;> cases profilePic? <;>
    exact ⟨HashTable.get_insert_self _ hWF _ _,
      fun k hk => HashTable.get_insert_ne _ hWF _ k _ hk, rfl, rfl⟩

/-- Witness for C9: updating only the username of a stored user. -/
theorem C9_update_profile_frame_witness :
    sUsers.users.WF ∧
    (update_profile sUsers userA (some "al2") none).users.get userA.id =
      some { userA with
        username := (some "al2").getD userA.username,
        profilePic := (none : Option String).getD userA.profilePic } ∧
    (update_profile sUsers userA (some "al2") none).users.get "B" =
      sUsers.users.get "B" := by
  have hWF : sUsers.users.WF := by decide
  obtain ⟨h1, h2, _, _⟩ := C9_update_profile_frame sUsers hWF userA (some "al2") none
  exact ⟨hWF, h1, h2 "B" (by decide)⟩

/-- **C5.** With the required fields present (non-empty, as the handler's
falsy-check demands) and a fresh generated user id, `register` fails
`Duplicate` exactly when some existing user already has the given email —
in that case the handler returns before inserting, so no user is added —
and after a successful `register`, `findByEmail` on that email returns the
record just inserted. -/
theorem C5_register_email (s : AppState) (hWF : s.users.WF) (now : Nat)
    (uid username email pw : String)
    (hfresh : s.users.get uid = none)
    (hu : username ≠ "") (he : email ≠ "") (hp : pw ≠ "") :
    (register s now uid username email pw = .error .duplicate ↔
      ∃ u ∈ s.users.get_all, u.email = email) ∧
    (∀ s' u, register s now uid username email pw = .ok (s', u) →
      u = ⟨uid, username, email, pw, "", now⟩ ∧ findByEmail s' email = some u) := by
  have hinv : ¬ (username = "" ∨ email = "" ∨ pw = "") := by
    push_neg
    exact ⟨hu, he, hp⟩
  constructor
  · unfold register
    rw [if_neg hinv]
    cases hany : (s.users.get_all).any (fun u => u.email == email) with
    | true =>
      rw [if_pos rfl]
      constructor
      · intro _
        obtain ⟨u, hmem, hbe⟩ := List.any_eq_true.mp hany
        exact ⟨u, hmem, by simpa using hbe⟩
      · intro _
        rfl
    | false =>
      rw [if_neg Bool.false_ne_true]
      constructor
      · intro hcontr
        exact Except.noConfusion hcontr
      · rintro ⟨u, hmem, hem⟩
        have hx : (s.users.get_all).any (fun v => v.email == email) = true :=
          List.any_eq_true.mpr ⟨u, hmem, by simpa using hem⟩
        rw [hany] at hx
        exact absurd hx Bool.false_ne_true
  · intro s' u hok
    obtain ⟨_, _, _, hany, hu', hs'⟩ :=
      register_ok_inv s now uid username email pw s' u hok
    refine ⟨hu', ?_⟩
    subst hu'
    subst hs'
    unfold findByEmail
    dsimp only
    rw [find?_eq_head_filter]
    have hperm := HashTable.get_all_insert_perm s.users hWF uid
      ⟨uid, username, email, pw, "", now⟩ hfresh
    have h1 : List.Perm
        (((s.users.insert uid ⟨uid, username, email, pw, "", now⟩).get_all).filter
          (fun v => v.email == email))
        (((⟨uid, username, email, pw, "", now⟩ : User) :: s.users.get_all).filter
          (fun v => v.email == email)) := hperm.filter _
    rw [filterConsPos (fun v : User => v.email == email) _ _ (by simp)] at h1
    have h0 : (s.users.get_all).filter (fun v => v.email == email) = [] := by
      rw [List.filter_eq_nil_iff]
      intro a ha hbe
      have hx : (s.users.get_all).any (fun v => v.email == email) = true :=
        List.any_eq_true.mpr ⟨a, ha, hbe⟩
      rw [hany] at hx
      exact absurd hx Bool.false_ne_true
    rw [h0] at h1
    rw [List.perm_singleton.mp h1]
    rfl

/-- Witness for C5 at a concrete store: registering with an email already
taken by `userA` is rejected as duplicate. -/
theorem C5_register_email_witness :
    sUsers.users.WF ∧ sUsers.users.get "C" = none ∧
    ("carol" : String) ≠ "" ∧ ("a@x" : String) ≠ "" ∧ ("pw" : String) ≠ "" ∧
    (register sUsers 9 "C" "carol" "a@x" "pw" = .error .duplicate ↔
      ∃ u ∈ sUsers.users.get_all, u.email = "a@x") := by
  have hWF : sUsers.users.WF := by decide
  have hfresh : sUsers.users.get "C" = none := by decide
  have h := (C5_register_email sUsers hWF 9 "C" "carol" "a@x" "pw" hfresh
    (by decide) (by decide) (by decide)).1
  exact ⟨hWF, hfresh, by decide, by decide, by decide, h⟩

/-- In a keyed store, no record carries a key that is absent. -/
theorem filter_id_nil {α : Type} (h : HashTable α) (hWF : h.WF) (f : α → String)
    (hkeyed : h.KeyedBy f) (key : String) (hnone : h.get key = none) :
    h.get_all.filter (fun a => f a == key) = [] := by
  rw [List.filter_eq_nil_iff]
  intro a ha hbe
  have hfa : f a = key := by simpa using hbe
  obtain ⟨k, hkv⟩ := (HashTable.mem_get_all_iff h a).mp ha
  have hk : f a = k := hkeyed (k, a) hkv
  rw [hk] at hfa
  subst hfa
  rw [(HashTable.get_eq_some_iff_mem_pairs h hWF _ _).mpr hkv] at hnone
  exact Option.noConfusion hnone

/-- Inserting under a previously absent key leaves exactly one record with
that key in the whole keyed store. -/
theorem filter_id_insert_singleton {α : Type} (h : HashTable α) (hWF : h.WF)
    (f : α → String) (hkeyed : h.KeyedBy f) (key : String) (v : α)
    (hnone : h.get key = none) (hv : f v = key) :
    (h.insert key v).get_all.filter (fun a => f a == key) = [v] := by
  have hperm := (HashTable.get_all_insert_perm h hWF key v hnone).filter
    (fun a => f a == key)
  rw [filterConsPos (fun a => f a == key) _ _ (by simp [hv])] at hperm
  rw [filter_id_nil h hWF f hkeyed key hnone] at hperm
  exact List.perm_singleton.mp hperm

/-- **C4.** For an ordered pair of distinct stored users `(A, B)`: after
`send_friend_request A → B` succeeds, exactly one `FriendRequest` keyed
`A_B` exists in the store; a second identical call fails `Duplicate`; and
the reciprocal call `B → A` is not rejected by the duplicate check — with
no reverse request pending it succeeds outright, so reciprocal pending
requests can coexist.  (The duplicate check only tests the caller's own
forward key.) -/
theorem C4_send_request_duplicate (s : AppState)
    (hWFr : s.friend_requests.WF)
    (hkeyed : s.friend_requests.KeyedBy FriendRequest.id)
    (A B : User)
    (hA : s.users.get A.id = some A) (hB : s.users.get B.id = some B)
    (hAid : A.id ≠ "")
    (hkeys : A.id ++ "_" ++ B.id ≠ B.id ++ "_" ++ A.id)
    (hrev : s.friend_requests.get (B.id ++ "_" ++ A.id) = none)
    (now now2 now3 : Nat) (nid nid2 nid3 : String)
    (s1 : AppState) (ev1 : List Event)
    (hok : send_friend_request s now nid A B.id = .ok (s1, ev1)) :
    s1.friend_requests.get_all.filter (fun r => r.id == A.id ++ "_" ++ B.id) =
      [⟨A.id ++ "_" ++ B.id, A.id, B.id, "pending", now⟩] ∧
    send_friend_request s1 now2 nid2 A B.id = .error .duplicate ∧
    (send_friend_request s1 now3 nid3 B A.id).isOk = true := by
  obtain ⟨hBne, _, hfwd, hf1, hf2, hs1, _⟩ :=
    send_friend_request_inv s now nid A B.id s1 ev1 hok
  subst hs1
  refine ⟨?_, ?_, ?_⟩
  · exact filter_id_insert_singleton s.friend_requests hWFr FriendRequest.id
      hkeyed (A.id ++ "_" ++ B.id) _ hfwd rfl
  · unfold send_friend_request
    dsimp only
    rw [if_neg hBne, hB]
    have hsome : ((s.friend_requests.insert (A.id ++ "_" ++ B.id)
        ⟨A.id ++ "_" ++ B.id, A.id, B.id, "pending", now⟩).get
        (A.id ++ "_" ++ B.id)).isSome = true := by
      rw [HashTable.get_insert_self _ hWFr _ _]
      rfl
    rw [if_pos hsome]
  · unfold send_friend_request
    dsimp only
    rw [if_neg hAid, hA]
    have hnot : ((s.friend_requests.insert (A.id ++ "_" ++ B.id)
        ⟨A.id ++ "_" ++ B.id, A.id, B.id, "pending", now⟩).get
        (B.id ++ "_" ++ A.id)).isSome ≠ true := by
      rw [HashTable.get_insert_ne _ hWFr _ _ _ (fun hh => hkeys hh.symm), hrev]
      simp
    rw [if_neg hnot]
    have hnof : ¬ ((s.friends.get (B.id ++ "_" ++ A.id)).isSome = true ∨
        (s.friends.get (A.id ++ "_" ++ B.id)).isSome = true) := by
      rw [hf1, hf2]
      simp
    rw [if_neg hnof]
    rfl

instance (h : HashTable Friendship) : Decidable (FriendshipKeys h) := by
  unfold FriendshipKeys
  infer_instance

/-- **C3.** After `send_friend_request A → B` succeeds and then
`accept_friend_request` by `B` of `A` succeeds: exactly one Friendship
record for the pair exists and it is keyed accepter-first (`B_A`); the
FriendRequest keyed `A_B` no longer exists; one system Notification was
created for each party; and each user appears in the other's
`get_friends`. -/
theorem C3_accept_request (s : AppState)
    (hWFr : s.friend_requests.WF) (hWFf : s.friends.WF)
    (hWFn : s.notifications.WF)
    (hkeysf : FriendshipKeys s.friends)
    (A B : User)
    (hA : s.users.get A.id = some A) (hB : s.users.get B.id = some B)
    (hne : A.id ≠ B.id)
    (now1 now2 : Nat) (nidr nid1 nid2 : String) (hnid : nid1 ≠ nid2)
    (s1 : AppState) (ev1 : List Event) (fd : FriendSummary) (s2 : AppState)
    (ev2 : List Event)
    (hok1 : send_friend_request s now1 nidr A B.id = .ok (s1, ev1))
    (hok2 : accept_friend_request s1 now2 nid1 nid2 B A.id = .ok (fd, s2, ev2)) :
    s2.friends.get (B.id ++ "_" ++ A.id) =
      some ⟨B.id ++ "_" ++ A.id, B.id, A.id, now2⟩ ∧
    s2.friends.get_all.filter (fun f => decide ((f.user1Id = A.id ∧ f.user2Id = B.id) ∨
      (f.user1Id = B.id ∧ f.user2Id = A.id))) =
      [⟨B.id ++ "_" ++ A.id, B.id, A.id, now2⟩] ∧
    s2.friend_requests.get (A.id ++ "_" ++ B.id) = none ∧
    s2.notifications.get nid1 = some ⟨nid1, "system", none, none, B.id,
      "You are now friends with " ++ A.username, false, now2⟩ ∧
    s2.notifications.get nid2 = some ⟨nid2, "system", none, none, A.id,
      B.username ++ " accepted your friend request", false, now2⟩ ∧
    (∃ fs ∈ get_friends s2 B.id, fs.id = A.id) ∧
    (∃ fs ∈ get_friends s2 A.id, fs.id = B.id) := by
  obtain ⟨hBne, _, hfwd, hf1, hf2, hs1, _⟩ :=
    send_friend_request_inv s now1 nidr A B.id s1 ev1 hok1
  obtain ⟨hreq, sender, hsender, hfd, hs2, _⟩ :=
    accept_friend_request_inv s1 now2 nid1 nid2 B A.id fd s2 ev2 hok2
  have hsusers : s1.users = s.users := by rw [hs1]
  rw [hsusers, hA] at hsender
  have hsA : sender = A := (Option.some.inj hsender).symm
  rw [hsA] at hs2
  have hfr1 : s1.friends = s.friends := by rw [hs1]
  have hrq1 : s1.friend_requests = s.friend_requests.insert (A.id ++ "_" ++ B.id)
      ⟨A.id ++ "_" ++ B.id, A.id, B.id, "pending", now1⟩ := by rw [hs1]
  have hnt1 : s1.notifications = s.notifications.insert nidr
      ⟨nidr, "friend_request", some A.id, some A.username, B.id,
       A.username ++ " sent you a friend request", false, now1⟩ := by rw [hs1]
  have hfr2 : s2.friends = s.friends.insert (B.id ++ "_" ++ A.id)
      ⟨B.id ++ "_" ++ A.id, B.id, A.id, now2⟩ := by rw [hs2, hfr1]
  have hrq2 : s2.friend_requests = s1.friend_requests.remove (A.id ++ "_" ++ B.id) := by
    rw [hs2]
  have hnt2 : s2.notifications = (s1.notifications.insert nid1
      ⟨nid1, "system", none, none, B.id,
       "You are now friends with " ++ A.username, false, now2⟩).insert nid2
      ⟨nid2, "system", none, none, A.id,
       B.username ++ " accepted your friend request", false, now2⟩ := by rw [hs2]
  have hg1 : s2.friends.get (B.id ++ "_" ++ A.id) =
      some ⟨B.id ++ "_" ++ A.id, B.id, A.id, now2⟩ := by
    rw [hfr2]
    exact HashTable.get_insert_self _ hWFf _ _
  have husers2 : s2.users = s.users := by rw [hs2, hsusers]
  refine ⟨hg1, ?_, ?_, ?_, ?_, ?_, ?_⟩
  · rw [hfr2]
    have hperm := (HashTable.get_all_insert_perm s.friends hWFf
        (B.id ++ "_" ++ A.id) ⟨B.id ++ "_" ++ A.id, B.id, A.id, now2⟩ hf2).filter
      (fun f => decide ((f.user1Id = A.id ∧ f.user2Id = B.id) ∨
        (f.user1Id = B.id ∧ f.user2Id = A.id)))
    rw [filterConsPos (fun f : Friendship =>
        decide ((f.user1Id = A.id ∧ f.user2Id = B.id) ∨
          (f.user1Id = B.id ∧ f.user2Id = A.id))) _ _
      (decide_eq_true (Or.inr ⟨rfl, rfl⟩))] at hperm
    have hold : (s.friends.get_all).filter
        (fun f => decide ((f.user1Id = A.id ∧ f.user2Id = B.id) ∨
          (f.user1Id = B.id ∧ f.user2Id = A.id))) = [] := by
      rw [List.filter_eq_nil_iff]
      intro f hf hp
      have hp' := of_decide_eq_true hp
      obtain ⟨k, hkv⟩ := (HashTable.mem_get_all_iff s.friends f).mp hf
      obtain ⟨hid1, hid2⟩ := hkeysf (k, f) hkv
      dsimp only at hid1 hid2
      have hget : s.friends.get k = some f :=
        (HashTable.get_eq_some_iff_mem_pairs _ hWFf _ _).mpr hkv
      rw [← hid1, hid2] at hget
      rcases hp' with ⟨h1, h2⟩ | ⟨h1, h2⟩
      · rw [h1, h2] at hget
        exact Option.noConfusion (hf1.symm.trans hget)
      · rw [h1, h2] at hget
        exact Option.noConfusion (hf2.symm.trans hget)
    rw [hold] at hperm
    exact List.perm_singleton.mp hperm
  · rw [hrq2, hrq1]
    exact HashTable.get_remove_self _ (HashTable.WF_insert _ hWFr _ _) _
  · rw [hnt2]
    rw [HashTable.get_insert_ne _ (HashTable.WF_insert _
      (by rw [hnt1]; exact HashTable.WF_insert _ hWFn _ _) _ _) nid2 nid1 _ hnid]
    exact HashTable.get_insert_self _
      (by rw [hnt1]; exact HashTable.WF_insert _ hWFn _ _) _ _
  · rw [hnt2]
    exact HashTable.get_insert_self _ (HashTable.WF_insert _
      (by rw [hnt1]; exact HashTable.WF_insert _ hWFn _ _) _ _) _ _
  · have hWFf2 : s2.friends.WF := by
      rw [hfr2]
      exact HashTable.WF_insert _ hWFf _ _
    have hmem : (⟨B.id ++ "_" ++ A.id, B.id, A.id, now2⟩ : Friendship) ∈
        s2.friends.get_all := by
      refine (HashTable.mem_get_all_iff _ _).mpr ⟨B.id ++ "_" ++ A.id, ?_⟩
      exact (HashTable.get_eq_some_iff_mem_pairs _ hWFf2 _ _).mp hg1
    have hview : friendView s2 B.id ⟨B.id ++ "_" ++ A.id, B.id, A.id, now2⟩ =
        some ⟨A.id, A.username, A.profilePic, presenceOf s2 A.id⟩ := by
      unfold friendView
      rw [if_pos (Or.inl rfl)]
      dsimp only
      rw [if_pos rfl, husers2, hA]
    refine ⟨⟨A.id, A.username, A.profilePic, presenceOf s2 A.id⟩, ?_, rfl⟩
    unfold get_friends
    rw [foldl_opt_append (friendView s2 B.id) _ []]
    rw [List.nil_append]
    exact List.mem_filterMap.mpr ⟨_, hmem, hview⟩
  · have hWFf2 : s2.friends.WF := by
      rw [hfr2]
      exact HashTable.WF_insert _ hWFf _ _
    have hmem : (⟨B.id ++ "_" ++ A.id, B.id, A.id, now2⟩ : Friendship) ∈
        s2.friends.get_all := by
      refine (HashTable.mem_get_all_iff _ _).mpr ⟨B.id ++ "_" ++ A.id, ?_⟩
      exact (HashTable.get_eq_some_iff_mem_pairs _ hWFf2 _ _).mp hg1
    have hview : friendView s2 A.id ⟨B.id ++ "_" ++ A.id, B.id, A.id, now2⟩ =
        some ⟨B.id, B.username, B.profilePic, presenceOf s2 B.id⟩ := by
      unfold friendView
      rw [if_pos (Or.inr rfl)]
      dsimp only
      rw [if_neg (fun hh => hne hh.symm), husers2, hB]
    refine ⟨⟨B.id, B.username, B.profilePic, presenceOf s2 B.id⟩, ?_, rfl⟩
    unfold get_friends
    rw [foldl_opt_append (friendView s2 A.id) _ []]
    rw [List.nil_append]
    exact List.mem_filterMap.mpr ⟨_, hmem, hview⟩

def nReq1 : Notification :=
  ⟨"n1", "friend_request", some "A", some "alice", "B",
   "alice sent you a friend request", false, 3⟩

def sReq : AppState :=
  { sUsers with
    friend_requests :=
      (HashTable.empty FriendRequest).insert "A_B" ⟨"A_B", "A", "B", "pending", 3⟩,
    notifications := (HashTable.empty Notification).insert "n1" nReq1 }

/-- Witness for C4: the concrete two-user scenario. -/
theorem C4_send_request_duplicate_witness :
    sUsers.friend_requests.WF ∧
    sUsers.friend_requests.KeyedBy FriendRequest.id ∧
    sUsers.users.get userA.id = some userA ∧
    sUsers.users.get userB.id = some userB ∧
    userA.id ≠ "" ∧
    userA.id ++ "_" ++ userB.id ≠ userB.id ++ "_" ++ userA.id ∧
    sUsers.friend_requests.get (userB.id ++ "_" ++ userA.id) = none ∧
    send_friend_request sUsers 3 "n1" userA userB.id = .ok (sReq, []) ∧
    sReq.friend_requests.get_all.filter
      (fun r => r.id == userA.id ++ "_" ++ userB.id) =
      [⟨userA.id ++ "_" ++ userB.id, userA.id, userB.id, "pending", 3⟩] ∧
    send_friend_request sReq 4 "n2" userA userB.id = .error .duplicate ∧
    (send_friend_request sReq 5 "n3" userB userA.id).isOk = true := by
  have hWFr : sUsers.friend_requests.WF := by decide
  have hkeyed : sUsers.friend_requests.KeyedBy FriendRequest.id := by decide
  have hA : sUsers.users.get userA.id = some userA := by decide
  have hB : sUsers.users.get userB.id = some userB := by decide
  have hok : send_friend_request sUsers 3 "n1" userA userB.id = .ok (sReq, []) := by
    rfl
  obtain ⟨h1, h2, h3⟩ := C4_send_request_duplicate sUsers hWFr hkeyed userA userB
    hA hB (by decide) (by decide) (by decide) 3 4 5 "n1" "n2" "n3" sReq [] hok
  exact ⟨hWFr, hkeyed, hA, hB, by decide, by decide, by decide, hok, h1, h2, h3⟩

def nAcc1 : Notification :=
  ⟨"n3", "system", none, none, "B", "You are now friends with alice", false, 7⟩

def nAcc2 : Notification :=
  ⟨"n4", "system", none, none, "A", "bob accepted your friend request", false, 7⟩

def sAcc : AppState :=
  { sReq with
    friends := (HashTable.empty Friendship).insert "B_A" ⟨"B_A", "B", "A", 7⟩,
    friend_requests := sReq.friend_requests.remove "A_B",
    notifications := (sReq.notifications.insert "n3" nAcc1).insert "n4" nAcc2 }

/-- Witness for C3: request then accept between the two fixture users. -/
theorem C3_accept_request_witness :
    sUsers.friend_requests.WF ∧ sUsers.friends.WF ∧ sUsers.notifications.WF ∧
    FriendshipKeys sUsers.friends ∧
    sUsers.users.get userA.id = some userA ∧
    sUsers.users.get userB.id = some userB ∧
    userA.id ≠ userB.id ∧ ("n3" : String) ≠ "n4" ∧
    send_friend_request sUsers 3 "n1" userA userB.id = .ok (sReq, []) ∧
    accept_friend_request sReq 7 "n3" "n4" userB userA.id =
      .ok (⟨"A", "alice", "", "offline"⟩, sAcc, []) ∧
    sAcc.friends.get (userB.id ++ "_" ++ userA.id) =
      some ⟨userB.id ++ "_" ++ userA.id, userB.id, userA.id, 7⟩ ∧
    sAcc.friend_requests.get (userA.id ++ "_" ++ userB.id) = none ∧
    (∃ fs ∈ get_friends sAcc userB.id, fs.id = userA.id) ∧
    (∃ fs ∈ get_friends sAcc userA.id, fs.id = userB.id) := by
  have hWFr : sUsers.friend_requests.WF := by decide
  have hWFf : sUsers.friends.WF := by decide
  have hWFn : sUsers.notifications.WF := by decide
  have hkeysf : FriendshipKeys sUsers.friends := by decide
  have hA : sUsers.users.get userA.id = some userA := by decide
  have hB : sUsers.users.get userB.id = some userB := by decide
  have hok1 : send_friend_request sUsers 3 "n1" userA userB.id = .ok (sReq, []) := by
    rfl
  have hok2 : accept_friend_request sReq 7 "n3" "n4" userB userA.id =
      .ok (⟨"A", "alice", "", "offline"⟩, sAcc, []) := by
    rfl
  obtain ⟨g1, _, g3, _, _, g6, g7⟩ := C3_accept_request sUsers hWFr hWFf hWFn
    hkeysf userA userB hA hB (by decide) 3 7 "n1" "n3" "n4" (by decide)
    sReq [] ⟨"A", "alice", "", "offline"⟩ sAcc [] hok1 hok2
  exact ⟨hWFr, hWFf, hWFn, hkeysf, hA, hB, by decide, by decide, hok1, hok2,
    g1, g3, g6, g7⟩

/-- Distinct stored records have distinct keys, so a keyed store's records
have pairwise distinct `f`-fields across the whole traversal. -/
theorem get_all_ids_nodup {α : Type} (h : HashTable α) (hWF : h.WF)
    (f : α → String) (hkeyed : h.KeyedBy f) : ((h.get_all).map f).Nodup := by
  have he : (h.get_all).map f = h.pairs.map Prod.fst := by
    rw [HashTable.get_all_eq_map_pairs, List.map_map]
    exact List.map_congr_left (fun kv hkv => hkeyed kv hkv)
  rw [he]
  exact HashTable.keys_nodup h hWF

/-- **C7.** The Message/MessageStatus pairing invariant — a status record
keyed by a message id exists iff the Message with that id exists — is
preserved by every core operation: `send_message` creates both together,
`delete_message` and `delete_account` remove both together, and
`mark_message_as_seen` / `get_messages` only overwrite statuses of
existing messages. -/
theorem C7_status_invariant (s : AppState)
    (hWFm : s.messages.WF) (hWFst : s.message_status.WF)
    (hkeyed : s.messages.KeyedBy Message.id)
    (hinv : StatusInv s) :
    (∀ now mid nid cur rid content m s' ev,
      send_message s now mid nid cur rid content = .ok (m, s', ev) → StatusInv s') ∧
    (∀ cur mid s', delete_message s cur mid = .ok s' → StatusInv s') ∧
    (∀ now cur mid s' ev,
      mark_message_as_seen s now cur mid = .ok (s', ev) → StatusInv s') ∧
    (∀ now cur fid conv s' ev,
      get_messages s now cur fid = .ok (conv, s', ev) → StatusInv s') ∧
    (∀ cur, StatusInv (delete_account s cur)) := by
  refine ⟨?_, ?_, ?_, ?_, ?_⟩
  · intro now mid nid cur rid content m s' ev hok
    obtain ⟨_, _, _, _, _, hs'⟩ :=
      send_message_inv s now mid nid cur rid content m s' ev hok
    subst hs'
    intro k
    dsimp only
    by_cases hk : k = mid
    · subst hk
      rw [HashTable.get_insert_self _ hWFm _ _,
        HashTable.get_insert_self _ hWFst _ _]
      rfl
    · rw [HashTable.get_insert_ne _ hWFm _ _ _ hk,
        HashTable.get_insert_ne _ hWFst _ _ _ hk]
      exact hinv k
  · intro cur mid s' hok
    obtain ⟨m, hm, _, hs'⟩ := delete_message_inv s cur mid s' hok
    subst hs'
    intro k
    dsimp only
    by_cases hk : k = mid
    · subst hk
      rw [HashTable.get_remove_self _ hWFm _, HashTable.get_remove_self _ hWFst _]
      rfl
    · rw [HashTable.get_remove_ne _ _ _ hk, HashTable.get_remove_ne _ _ _ hk]
      exact hinv k
  · intro now cur mid s' ev hok
    obtain ⟨m, hm, _, hs'⟩ := mark_message_as_seen_inv s now cur mid s' ev hok
    subst hs'
    intro k
    dsimp only
    by_cases hk : k = mid
    · subst hk
      rw [HashTable.get_insert_self _ hWFst _ _, hm]
      rfl
    · rw [HashTable.get_insert_ne _ hWFst _ _ _ hk]
      exact hinv k
  · intro now cur fid conv s' ev hok
    obtain ⟨_, _, hs', _⟩ := get_messages_inv s now cur fid conv s' ev hok
    subst hs'
    intro k
    dsimp only
    rw [msgLoop_mst_get s cur.id fid now (s.messages.get_all)
      ⟨[], s.message_status, []⟩ hWFst
      (get_all_ids_nodup s.messages hWFm Message.id hkeyed) k]
    by_cases hex : ∃ m ∈ s.messages.get_all, m.id = k ∧ inConv cur.id fid m ∧
        m.senderId = fid ∧
        ¬ statusSeen ((⟨[], s.message_status, []⟩ : MsgLoopState).mst.get m.id)
    · rw [if_pos hex]
      obtain ⟨m, hmem, hid, _⟩ := hex
      have hget : s.messages.get m.id = some m :=
        HashTable.get_of_mem_get_all s.messages hWFm Message.id hkeyed m hmem
      rw [hid] at hget
      rw [hget]
      rfl
    · rw [if_neg hex]
      exact hinv k
  · intro cur
    have hpair := foldl_pair_cond_remove Message.id
      (fun m => m.senderId = cur.id ∨ m.receiverId = cur.id)
      (s.messages.get_all) s.messages s.message_status
    have h1 : (delete_account s cur).messages =
        HashTable.removeList s.messages
          (((s.messages.get_all).filter (fun m =>
            decide (m.senderId = cur.id ∨ m.receiverId = cur.id))).map Message.id) := by
      show ((s.messages.get_all).foldl
        (fun (pr : HashTable Message × HashTable MessageStatus) m =>
          if m.senderId = cur.id ∨ m.receiverId = cur.id then
            (pr.1.remove m.id, pr.2.remove m.id)
          else pr) (s.messages, s.message_status)).1 = _
      rw [hpair]
    have h2 : (delete_account s cur).message_status =
        HashTable.removeList s.message_status
          (((s.messages.get_all).filter (fun m =>
            decide (m.senderId = cur.id ∨ m.receiverId = cur.id))).map Message.id) := by
      show ((s.messages.get_all).foldl
        (fun (pr : HashTable Message × HashTable MessageStatus) m =>
          if m.senderId = cur.id ∨ m.receiverId = cur.id then
            (pr.1.remove m.id, pr.2.remove m.id)
          else pr) (s.messages, s.message_status)).2 = _
      rw [hpair]
    intro k
    rw [h1, h2,
      HashTable.get_removeList s.messages hWFm _ k,
      HashTable.get_removeList s.message_status hWFst _ k]
    by_cases hk : k ∈ ((s.messages.get_all).filter (fun m =>
        decide (m.senderId = cur.id ∨ m.receiverId = cur.id))).map Message.id
    · rw [if_pos hk, if_pos hk]
      rfl
    · rw [if_neg hk, if_neg hk]
      exact hinv k


/-- A state holding exactly one message and its status satisfies the
pairing invariant. -/
theorem statusInv_single (s : AppState) (k : String) (m : Message)
    (st : MessageStatus)
    (hm : s.messages = (HashTable.empty Message).insert k m)
    (hst : s.message_status = (HashTable.empty MessageStatus).insert k st) :
    StatusInv s := by
  intro k'
  rw [hm, hst]
  by_cases hk : k' = k
  · subst hk
    rw [HashTable.get_insert_self _ (by decide) _ _,
      HashTable.get_insert_self _ (by decide) _ _]
    rfl
  · rw [HashTable.get_insert_ne _ (by decide) _ _ _ hk,
      HashTable.get_insert_ne _ (by decide) _ _ _ hk,
      HashTable.get_empty, HashTable.get_empty]
    rfl

/-- Witness for C7: in the fixture state with one message from B to A,
deleting A's account removes the status together with the message. -/
theorem C7_status_invariant_witness :
    sMsg.messages.WF ∧ sMsg.message_status.WF ∧
    sMsg.messages.KeyedBy Message.id ∧
    ((delete_account sMsg userA).message_status.get "m1").isSome =
      ((delete_account sMsg userA).messages.get "m1").isSome ∧
    ((delete_account sMsg userA).messages.get "m1").isSome = false := by
  have hWFm : sMsg.messages.WF := by decide
  have hWFst : sMsg.message_status.WF := by decide
  have hkeyed : sMsg.messages.KeyedBy Message.id := by decide
  have hinv : StatusInv sMsg :=
    statusInv_single sMsg "m1" msg1 ⟨"m1", "m1", false, none⟩ rfl rfl
  obtain ⟨_, _, _, _, h5⟩ := C7_status_invariant sMsg hWFm hWFst hkeyed hinv
  exact ⟨hWFm, hWFst, hkeyed, h5 userA "m1", by decide⟩

/-- **C2.** When user R retrieves the conversation with a friend S
(`get_messages`), every stored message authored by S to R whose status was
not yet seen gets its MessageStatus overwritten to `seen = true` with the
non-null timestamp of this call, and a live `message_seen` event addressed
to S is emitted when S is online; messages authored by R, and messages
already seen, keep their prior status. -/
theorem C2_get_messages_marks_seen (s : AppState) (now : Nat)
    (current : User) (fid : String) (hne : current.id ≠ fid)
    (hWFm : s.messages.WF) (hWFst : s.message_status.WF)
    (hkeyed : s.messages.KeyedBy Message.id)
    (conv : List MessageView) (s' : AppState) (ev : List Event)
    (hok : get_messages s now current fid = .ok (conv, s', ev)) :
    (∀ m ∈ s.messages.get_all, m.senderId = fid → m.receiverId = current.id →
      statusSeen (s.message_status.get m.id) = false →
        s'.message_status.get m.id = some ⟨m.id, m.id, true, some now⟩ ∧
        (isOnline s fid = true → Event.message_seen fid m.id now ∈ ev)) ∧
    (∀ m ∈ s.messages.get_all, m.senderId = current.id →
      s'.message_status.get m.id = s.message_status.get m.id) ∧
    (∀ m ∈ s.messages.get_all, statusSeen (s.message_status.get m.id) = true →
      s'.message_status.get m.id = s.message_status.get m.id) := by
  obtain ⟨_, _, hs', hev⟩ := get_messages_inv s now current fid conv s' ev hok
  subst hs'
  subst hev
  have hnd := get_all_ids_nodup s.messages hWFm Message.id hkeyed
  have hmst := msgLoop_mst_get s current.id fid now (s.messages.get_all)
    ⟨[], s.message_status, []⟩ hWFst hnd
  have hevs := msgLoop_evs s current.id fid now (s.messages.get_all)
    ⟨[], s.message_status, []⟩ hWFst hnd
  have hinj := List.inj_on_of_nodup_map hnd
  refine ⟨?_, ?_, ?_⟩
  · intro m hm hs hr hseen
    have hsn : ¬ statusSeen ((⟨[], s.message_status, []⟩ :
        MsgLoopState).mst.get m.id) = true := by
      dsimp only
      rw [hseen]
      exact Bool.false_ne_true
    constructor
    · dsimp only
      rw [hmst m.id, if_pos ⟨m, hm, rfl, Or.inr ⟨hs, hr⟩, hs, hsn⟩]
    · intro honline
      rw [hevs, List.nil_append, if_pos honline]
      refine List.mem_map.mpr ⟨m, ?_, rfl⟩
      refine List.mem_filter.mpr ⟨hm, ?_⟩
      exact decide_eq_true ⟨Or.inr ⟨hs, hr⟩, hs, hsn⟩
  · intro m hm hsender
    dsimp only
    rw [hmst m.id, if_neg]
    rintro ⟨m', hm', hid, hin, hsd, hns⟩
    have he : m' = m := hinj hm' hm hid
    rw [he] at hsd
    rw [hsender] at hsd
    exact hne hsd
  · intro m hm hseen
    dsimp only
    rw [hmst m.id, if_neg]
    rintro ⟨m', hm', hid, hin, hsd, hns⟩
    have he : m' = m := hinj hm' hm hid
    rw [he] at hns
    dsimp only at hns
    exact hns hseen

def sMsgOn : AppState := { sMsg with online_users := [("B", "sock")] }

def sSeenOn : AppState :=
  { sMsgOn with message_status :=
      sMsgOn.message_status.insert "m1" ⟨"m1", "m1", true, some 9⟩ }

/-- Witness for C2: A retrieves the conversation while B is online; the
unseen message from B is marked seen and a `message_seen` event goes to B. -/
theorem C2_get_messages_marks_seen_witness :
    userA.id ≠ "B" ∧ sMsgOn.messages.WF ∧ sMsgOn.message_status.WF ∧
    sMsgOn.messages.KeyedBy Message.id ∧
    get_messages sMsgOn 9 userA "B" =
      .ok ([⟨"m1", "B", "A", "hi", 6, false, none⟩], sSeenOn,
        [Event.message_seen "B" "m1" 9]) ∧
    sSeenOn.message_status.get msg1.id = some ⟨msg1.id, msg1.id, true, some 9⟩ ∧
    Event.message_seen "B" msg1.id 9 ∈ [Event.message_seen "B" "m1" 9] := by
  have h1 : userA.id ≠ "B" := by decide
  have hWFm : sMsgOn.messages.WF := by decide
  have hWFst : sMsgOn.message_status.WF := by decide
  have hkeyed : sMsgOn.messages.KeyedBy Message.id := by decide
  have hok : get_messages sMsgOn 9 userA "B" =
      .ok ([⟨"m1", "B", "A", "hi", 6, false, none⟩], sSeenOn,
        [Event.message_seen "B" "m1" 9]) := by rfl
  obtain ⟨g1, _, _⟩ := C2_get_messages_marks_seen sMsgOn 9 userA "B" h1 hWFm
    hWFst hkeyed _ _ _ hok
  have hm1 : msg1 ∈ sMsgOn.messages.get_all := by decide
  obtain ⟨ga, gb⟩ := g1 msg1 hm1 rfl rfl (by decide)
  exact ⟨h1, hWFm, hWFst, hkeyed, hok, ga, gb (by decide)⟩

/-- **C10.** When the receiver retrieves a conversation, the returned list
reports each message's seen flag as it was before this call's own
mark-seen side effect: a previously unseen message from the friend is
returned with `seen = false` and `seenAt = none`, even though the status
store is simultaneously overwritten to `seen = true`; the flip is visible
to a subsequent retrieval, which returns the message with `seen = true`. -/
theorem C10_stale_seen_in_response (s : AppState) (now now2 : Nat)
    (current : User) (fid : String)
    (hWFm : s.messages.WF) (hWFst : s.message_status.WF)
    (hkeyed : s.messages.KeyedBy Message.id)
    (conv : List MessageView) (s' : AppState) (ev : List Event)
    (hok : get_messages s now current fid = .ok (conv, s', ev))
    (m : Message) (hm : m ∈ s.messages.get_all)
    (hs : m.senderId = fid) (hr : m.receiverId = current.id)
    (hseen : statusSeen (s.message_status.get m.id) = false)
    (hseenAt : statusSeenAt (s.message_status.get m.id) = none) :
    (⟨m.id, m.senderId, m.receiverId, m.content, m.timestamp, false, none⟩ :
      MessageView) ∈ conv ∧
    s'.message_status.get m.id = some ⟨m.id, m.id, true, some now⟩ ∧
    (∀ conv2 s2 ev2, get_messages s' now2 current fid = .ok (conv2, s2, ev2) →
      (⟨m.id, m.senderId, m.receiverId, m.content, m.timestamp, true, some now⟩ :
        MessageView) ∈ conv2) := by
  obtain ⟨hfr, hconv, hs', hev⟩ := get_messages_inv s now current fid conv s' ev hok
  have hnd := get_all_ids_nodup s.messages hWFm Message.id hkeyed
  have hconvL := msgLoop_conv s current.id fid now (s.messages.get_all)
    ⟨[], s.message_status, []⟩ hWFst hnd
  have hmst := msgLoop_mst_get s current.id fid now (s.messages.get_all)
    ⟨[], s.message_status, []⟩ hWFst hnd
  have hview1 : viewOf m (s.message_status.get m.id) =
      ⟨m.id, m.senderId, m.receiverId, m.content, m.timestamp, false, none⟩ := by
    unfold viewOf
    rw [hseen, hseenAt]
  have hg2 : s'.message_status.get m.id = some ⟨m.id, m.id, true, some now⟩ := by
    rw [hs']
    dsimp only
    rw [hmst m.id, if_pos ⟨m, hm, rfl, Or.inr ⟨hs, hr⟩, hs, by
      dsimp only
      rw [hseen]
      exact Bool.false_ne_true⟩]
  refine ⟨?_, hg2, ?_⟩
  · rw [hconv, List.mem_insertionSort, hconvL, List.nil_append]
    refine List.mem_map.mpr ⟨m, ?_, ?_⟩
    · exact List.mem_filter.mpr ⟨hm, decide_eq_true (Or.inr ⟨hs, hr⟩)⟩
    · dsimp only
      exact hview1
  · intro conv2 s2 ev2 hok2
    obtain ⟨_, hconv2, _, _⟩ :=
      get_messages_inv s' now2 current fid conv2 s2 ev2 hok2
    have hmsg' : s'.messages = s.messages := by rw [hs']
    have hWFst' : s'.message_status.WF := by
      rw [hs']
      dsimp only
      exact msgLoop_mst_WF s current.id fid now (s.messages.get_all)
        ⟨[], s.message_status, []⟩ hWFst
    have hnd' : ((s'.messages.get_all).map Message.id).Nodup := by
      rw [hmsg']
      exact hnd
    have hconvL2 := msgLoop_conv s' current.id fid now2 (s'.messages.get_all)
      ⟨[], s'.message_status, []⟩ hWFst' hnd'
    rw [hconv2, List.mem_insertionSort, hconvL2, List.nil_append]
    refine List.mem_map.mpr ⟨m, ?_, ?_⟩
    · refine List.mem_filter.mpr ⟨?_, decide_eq_true (Or.inr ⟨hs, hr⟩)⟩
      rw [hmsg']
      exact hm
    · dsimp only
      rw [hg2]
      rfl

def sSeen : AppState :=
  { sMsg with message_status :=
      sMsg.message_status.insert "m1" ⟨"m1", "m1", true, some 9⟩ }

/-- Witness for C10: the first retrieval returns the message still marked
unseen while flipping the store; the second retrieval returns it seen. -/
theorem C10_stale_seen_in_response_witness :
    sMsg.messages.WF ∧ sMsg.message_status.WF ∧
    sMsg.messages.KeyedBy Message.id ∧
    get_messages sMsg 9 userA "B" =
      .ok ([⟨"m1", "B", "A", "hi", 6, false, none⟩], sSeen, []) ∧
    msg1 ∈ sMsg.messages.get_all ∧
    statusSeen (sMsg.message_status.get msg1.id) = false ∧
    (⟨msg1.id, msg1.senderId, msg1.receiverId, msg1.content, msg1.timestamp,
        false, none⟩ : MessageView) ∈
      ([⟨"m1", "B", "A", "hi", 6, false, none⟩] : List MessageView) ∧
    sSeen.message_status.get msg1.id = some ⟨msg1.id, msg1.id, true, some 9⟩ ∧
    get_messages sSeen 10 userA "B" =
      .ok ([⟨"m1", "B", "A", "hi", 6, true, some 9⟩], sSeen, []) ∧
    (⟨msg1.id, msg1.senderId, msg1.receiverId, msg1.content, msg1.timestamp,
        true, some 9⟩ : MessageView) ∈
      ([⟨"m1", "B", "A", "hi", 6, true, some 9⟩] : List MessageView) := by
  have hWFm : sMsg.messages.WF := by decide
  have hWFst : sMsg.message_status.WF := by decide
  have hkeyed : sMsg.messages.KeyedBy Message.id := by decide
  have hok : get_messages sMsg 9 userA "B" =
      .ok ([⟨"m1", "B", "A", "hi", 6, false, none⟩], sSeen, []) := by rfl
  have hm : msg1 ∈ sMsg.messages.get_all := by decide
  obtain ⟨g1, g2, g3⟩ := C10_stale_seen_in_response sMsg 9 10 userA "B" hWFm
    hWFst hkeyed _ _ _ hok msg1 hm rfl rfl (by decide) (by decide)
  have hok2 : get_messages sSeen 10 userA "B" =
      .ok ([⟨"m1", "B", "A", "hi", 6, true, some 9⟩], sSeen, []) := by rfl
  exact ⟨hWFm, hWFst, hkeyed, hok, hm, by decide, g1, g2, hok2,
    g3 _ _ _ hok2⟩

def msgTieB : Message := ⟨"b", "B", "A", "x", 5⟩

def msgTieA : Message := ⟨"a", "A", "B", "y", 5⟩

/-- Fixture for C6: message id "b" is inserted BEFORE id "a", both carry
the same timestamp, but `get_all` traverses bucket 97 ("a") before bucket
98 ("b"). -/
def sTie : AppState :=
  { sFriends with
    messages := ((HashTable.empty Message).insert "b" msgTieB).insert "a" msgTieA,
    message_status :=
      ((HashTable.empty MessageStatus).insert "b" ⟨"b", "b", false, none⟩).insert
        "a" ⟨"a", "a", false, none⟩ }

/-- Counterexample for C6 as stated: in `sTie` the message with id "b" was
inserted first, so tie-breaking by insertion order would return
["b", "a"]; the code returns ["a", "b"] because Python's stable sort sees
the messages in the store's bucket-traversal order, not insertion order. -/
theorem C6_sort_counterexample :
    (match get_messages sTie 9 userA "B" with
      | .ok (conv, _, _) => conv.map MessageView.id
      | .error _ => []) = ["a", "b"] ∧
    (["a", "b"] : List String) ≠ ["b", "a"] := by
  exact ⟨rfl, by decide⟩

/-- **C6 (amended).** `get_messages` returns exactly the messages exchanged
between the pair (as a permutation of the store's matching records), sorted
ascending by timestamp; the sort is stable with respect to the order the
message store's `get_all` traversal produces (bucket index ascending, then
per-bucket insertion order) — not with respect to global insertion order. -/
theorem C6_conversation_sorted (s : AppState) (now : Nat) (current : User)
    (fid : String)
    (hWFm : s.messages.WF) (hWFst : s.message_status.WF)
    (hkeyed : s.messages.KeyedBy Message.id)
    (conv : List MessageView) (s' : AppState) (ev : List Event)
    (hok : get_messages s now current fid = .ok (conv, s', ev)) :
    List.Perm
      (conv.map (fun v => (v.id, v.senderId, v.receiverId, v.content, v.timestamp)))
      (((s.messages.get_all).filter (fun m => decide (inConv current.id fid m))).map
        (fun m => (m.id, m.senderId, m.receiverId, m.content, m.timestamp))) ∧
    conv.Sorted tsLe ∧
    (∀ u v : MessageView, tsLe u v →
      List.Sublist [u, v]
        (((s.messages.get_all).filter (fun m => decide (inConv current.id fid m))).map
          (fun m => viewOf m (s.message_status.get m.id))) →
      List.Sublist [u, v] conv) := by
  obtain ⟨_, hconv, _, _⟩ := get_messages_inv s now current fid conv s' ev hok
  have hnd := get_all_ids_nodup s.messages hWFm Message.id hkeyed
  have hconvL := msgLoop_conv s current.id fid now (s.messages.get_all)
    ⟨[], s.message_status, []⟩ hWFst hnd
  rw [List.nil_append] at hconvL
  have hloop : ((s.messages.get_all).foldl
      (msgStep s current.id fid now) ⟨[], s.message_status, []⟩).conv =
      ((s.messages.get_all).filter (fun m => decide (inConv current.id fid m))).map
        (fun m => viewOf m (s.message_status.get m.id)) := hconvL
  refine ⟨?_, ?_, ?_⟩
  · rw [hconv]
    have hperm := (List.perm_insertionSort tsLe (((s.messages.get_all).foldl
      (msgStep s current.id fid now) ⟨[], s.message_status, []⟩).conv)).map
      (fun v : MessageView => (v.id, v.senderId, v.receiverId, v.content, v.timestamp))
    refine hperm.trans ?_
    rw [hloop, List.map_map]
    exact List.Perm.refl _
  · rw [hconv]
    exact List.sorted_insertionSort tsLe _
  · intro u v huv hsub
    rw [hconv]
    refine List.pair_sublist_insertionSort huv ?_
    rw [hloop]
    exact hsub

def sTie2 : AppState :=
  { sTie with message_status :=
      sTie.message_status.insert "b" ⟨"b", "b", true, some 9⟩ }

/-- Witness for the amended C6 at the tie fixture: the returned
conversation is timestamp-sorted. -/
theorem C6_conversation_sorted_witness :
    sTie.messages.WF ∧ sTie.message_status.WF ∧
    sTie.messages.KeyedBy Message.id ∧
    get_messages sTie 9 userA "B" =
      .ok ([⟨"a", "A", "B", "y", 5, false, none⟩,
            ⟨"b", "B", "A", "x", 5, false, none⟩], sTie2, []) ∧
    List.Sorted tsLe
      ([⟨"a", "A", "B", "y", 5, false, none⟩,
        ⟨"b", "B", "A", "x", 5, false, none⟩] : List MessageView) := by
  have hWFm : sTie.messages.WF := by decide
  have hWFst : sTie.message_status.WF := by decide
  have hkeyed : sTie.messages.KeyedBy Message.id := by decide
  have hok : get_messages sTie 9 userA "B" =
      .ok ([⟨"a", "A", "B", "y", 5, false, none⟩,
            ⟨"b", "B", "A", "x", 5, false, none⟩], sTie2, []) := by rfl
  obtain ⟨_, p2, _⟩ := C6_conversation_sorted sTie 9 userA "B" hWFm hWFst
    hkeyed _ _ _ hok
  exact ⟨hWFm, hWFst, hkeyed, hok, p2⟩

/-- After the conditional-remove cascade, no surviving record matches the
removal predicate. -/
theorem removeMatching_no_match {α : Type} (h : HashTable α) (hWF : h.WF)
    (f : α → String) (hkeyed : h.KeyedBy f) (p : α → Prop) [DecidablePred p]
    (a : α)
    (ha : a ∈ (HashTable.removeList h
      (((h.get_all).filter (fun x => decide (p x))).map f)).get_all) :
    ¬ p a := by
  intro hpa
  obtain ⟨k, hkv⟩ := (HashTable.mem_get_all_iff _ a).mp ha
  have hsub := HashTable.pairs_removeList_sublist h
    (((h.get_all).filter (fun x => decide (p x))).map f)
  have hkv0 : (k, a) ∈ h.pairs := hsub.subset hkv
  have hfk : f a = k := hkeyed (k, a) hkv0
  have hmem : a ∈ h.get_all := (HashTable.mem_get_all_iff h a).mpr ⟨k, hkv0⟩
  have hks : f a ∈ ((h.get_all).filter (fun x => decide (p x))).map f :=
    List.mem_map_of_mem f (List.mem_filter.mpr ⟨hmem, decide_eq_true hpa⟩)
  have hnone := HashTable.get_removeList h hWF
    (((h.get_all).filter (fun x => decide (p x))).map f) k
  rw [if_pos (hfk ▸ hks)] at hnone
  have hWF' := HashTable.WF_removeList h hWF
    (((h.get_all).filter (fun x => decide (p x))).map f)
  have hsome : (HashTable.removeList h
      (((h.get_all).filter (fun x => decide (p x))).map f)).get k = some a :=
    (HashTable.get_eq_some_iff_mem_pairs _ hWF' _ _).mpr hkv
  rw [hnone] at hsome
  exact Option.noConfusion hsome

def notifAtoB : Notification :=
  ⟨"n1", "friend_request", some "A", some "alice", "B",
   "alice sent you a friend request", false, 3⟩

/-- Fixture for C1: user B holds a notification whose SENDER is user A. -/
def sNotif : AppState :=
  { sUsers with
    notifications := (HashTable.empty Notification).insert "n1" notifAtoB }

/-- Counterexample for C1 as stated: after A's account is deleted, the
notification sent BY A to B survives (the cascade filters notifications by
`receiverId` only), so B's notification list still references the deleted
id "A" through `senderId`, even though the user record itself is gone. -/
theorem C1_delete_account_counterexample :
    (get_notifications (delete_account sNotif userA) "B").map
      Notification.senderId = [some "A"] ∧
    (delete_account sNotif userA).users.get "A" = none := by
  exact ⟨rfl, by decide⟩

/-- **C1 (amended).** `delete_account` cascades over Friendships,
FriendRequests, Messages and MessageStatuses completely: no surviving
record in those collections references the deleted id, statuses survive
exactly for surviving messages, and the deleted user's own notification
list is empty — but among Notifications only those whose RECEIVER is the
deleted user are removed (a notification whose sender is the deleted user
survives, as the counterexample shows). -/
theorem C1_delete_account_cascade (s : AppState) (cur : User)
    (hWFu : s.users.WF)
    (hWFf : s.friends.WF) (hkf : s.friends.KeyedBy Friendship.id)
    (hWFr : s.friend_requests.WF)
    (hkr : s.friend_requests.KeyedBy FriendRequest.id)
    (hWFm : s.messages.WF) (hkm : s.messages.KeyedBy Message.id)
    (hWFst : s.message_status.WF)
    (hWFn : s.notifications.WF) (hkn : s.notifications.KeyedBy Notification.id)
    (hinv : StatusInv s) :
    (∀ f ∈ (delete_account s cur).friends.get_all,
      f.user1Id ≠ cur.id ∧ f.user2Id ≠ cur.id) ∧
    (∀ r ∈ (delete_account s cur).friend_requests.get_all,
      r.senderId ≠ cur.id ∧ r.receiverId ≠ cur.id) ∧
    (∀ m ∈ (delete_account s cur).messages.get_all,
      m.senderId ≠ cur.id ∧ m.receiverId ≠ cur.id) ∧
    (∀ k, ((delete_account s cur).message_status.get k).isSome =
      ((delete_account s cur).messages.get k).isSome) ∧
    (∀ n ∈ (delete_account s cur).notifications.get_all,
      n.receiverId ≠ cur.id) ∧
    get_notifications (delete_account s cur) cur.id = [] ∧
    (delete_account s cur).users.get cur.id = none := by
  have hfr : (delete_account s cur).friends = HashTable.removeList s.friends
      (((s.friends.get_all).filter (fun f =>
        decide (f.user1Id = cur.id ∨ f.user2Id = cur.id))).map Friendship.id) := by
    show (s.friends.get_all).foldl
      (fun t f => if f.user1Id = cur.id ∨ f.user2Id = cur.id then t.remove f.id else t)
      s.friends = _
    rw [foldl_cond_remove_eq_removeList Friendship.id
      (fun f => f.user1Id = cur.id ∨ f.user2Id = cur.id)]
  have hrq : (delete_account s cur).friend_requests =
      HashTable.removeList s.friend_requests
      (((s.friend_requests.get_all).filter (fun r =>
        decide (r.senderId = cur.id ∨ r.receiverId = cur.id))).map
          FriendRequest.id) := by
    show (s.friend_requests.get_all).foldl
      (fun t r => if r.senderId = cur.id ∨ r.receiverId = cur.id then
        t.remove r.id else t) s.friend_requests = _
    rw [foldl_cond_remove_eq_removeList FriendRequest.id
      (fun r => r.senderId = cur.id ∨ r.receiverId = cur.id)]
  have hpair := foldl_pair_cond_remove Message.id
    (fun m => m.senderId = cur.id ∨ m.receiverId = cur.id)
    (s.messages.get_all) s.messages s.message_status
  have hms : (delete_account s cur).messages = HashTable.removeList s.messages
      (((s.messages.get_all).filter (fun m =>
        decide (m.senderId = cur.id ∨ m.receiverId = cur.id))).map Message.id) := by
    show ((s.messages.get_all).foldl
      (fun (pr : HashTable Message × HashTable MessageStatus) m =>
        if m.senderId = cur.id ∨ m.receiverId = cur.id then
          (pr.1.remove m.id, pr.2.remove m.id)
        else pr) (s.messages, s.message_status)).1 = _
    rw [hpair]
  have hst : (delete_account s cur).message_status =
      HashTable.removeList s.message_status
      (((s.messages.get_all).filter (fun m =>
        decide (m.senderId = cur.id ∨ m.receiverId = cur.id))).map Message.id) := by
    show ((s.messages.get_all).foldl
      (fun (pr : HashTable Message × HashTable MessageStatus) m =>
        if m.senderId = cur.id ∨ m.receiverId = cur.id then
          (pr.1.remove m.id, pr.2.remove m.id)
        else pr) (s.messages, s.message_status)).2 = _
    rw [hpair]
  have hnt : (delete_account s cur).notifications =
      HashTable.removeList s.notifications
      (((s.notifications.get_all).filter (fun n =>
        decide (n.receiverId = cur.id))).map Notification.id) := by
    show (s.notifications.get_all).foldl
      (fun t n => if n.receiverId = cur.id then t.remove n.id else t)
      s.notifications = _
    rw [foldl_cond_remove_eq_removeList Notification.id
      (fun n => n.receiverId = cur.id)]
  have hnomatchN : ∀ n ∈ (delete_account s cur).notifications.get_all,
      n.receiverId ≠ cur.id := by
    intro n hn
    rw [hnt] at hn
    exact removeMatching_no_match s.notifications hWFn Notification.id hkn
      (fun n => n.receiverId = cur.id) n hn
  refine ⟨?_, ?_, ?_, ?_, hnomatchN, ?_, ?_⟩
  · intro f hf
    rw [hfr] at hf
    have := removeMatching_no_match s.friends hWFf Friendship.id hkf
      (fun f => f.user1Id = cur.id ∨ f.user2Id = cur.id) f hf
    exact ⟨fun h1 => this (Or.inl h1), fun h2 => this (Or.inr h2)⟩
  · intro r hr
    rw [hrq] at hr
    have := removeMatching_no_match s.friend_requests hWFr FriendRequest.id hkr
      (fun r => r.senderId = cur.id ∨ r.receiverId = cur.id) r hr
    exact ⟨fun h1 => this (Or.inl h1), fun h2 => this (Or.inr h2)⟩
  · intro m hm
    rw [hms] at hm
    have := removeMatching_no_match s.messages hWFm Message.id hkm
      (fun m => m.senderId = cur.id ∨ m.receiverId = cur.id) m hm
    exact ⟨fun h1 => this (Or.inl h1), fun h2 => this (Or.inr h2)⟩
  · intro k
    rw [hms, hst,
      HashTable.get_removeList s.messages hWFm _ k,
      HashTable.get_removeList s.message_status hWFst _ k]
    by_cases hk : k ∈ ((s.messages.get_all).filter (fun m =>
        decide (m.senderId = cur.id ∨ m.receiverId = cur.id))).map Message.id
    · rw [if_pos hk, if_pos hk]
      rfl
    · rw [if_neg hk, if_neg hk]
      exact hinv k
  · unfold get_notifications
    have hfil : ((delete_account s cur).notifications.get_all).filter
        (fun n => n.receiverId == cur.id) = [] := by
      rw [List.filter_eq_nil_iff]
      intro n hn hbe
      exact hnomatchN n hn (by simpa using hbe)
    rw [hfil]
    rfl
  · show (s.users.remove cur.id).get cur.id = none
    exact HashTable.get_remove_self s.users hWFu cur.id

def notifToA : Notification := ⟨"n2", "system", none, none, "A", "hello", false, 4⟩

/-- Fixture for the C1 witness: the message fixture plus one notification
sent by A to B and one received by A. -/
def sFull : AppState :=
  { sMsg with notifications :=
      ((HashTable.empty Notification).insert "n1" notifAtoB).insert "n2" notifToA }

/-- Witness for the amended C1: deleting A's account empties A's own
notification list and removes the user record. -/
theorem C1_delete_account_cascade_witness :
    sFull.users.WF ∧ sFull.friends.WF ∧ sFull.friends.KeyedBy Friendship.id ∧
    sFull.friend_requests.WF ∧
    sFull.friend_requests.KeyedBy FriendRequest.id ∧
    sFull.messages.WF ∧ sFull.messages.KeyedBy Message.id ∧
    sFull.message_status.WF ∧ sFull.notifications.WF ∧
    sFull.notifications.KeyedBy Notification.id ∧
    get_notifications (delete_account sFull userA) userA.id = [] ∧
    (delete_account sFull userA).users.get userA.id = none := by
  have h1 : sFull.users.WF := by decide
  have h2 : sFull.friends.WF := by decide
  have h3 : sFull.friends.KeyedBy Friendship.id := by decide
  have h4 : sFull.friend_requests.WF := by decide
  have h5 : sFull.friend_requests.KeyedBy FriendRequest.id := by decide
  have h6 : sFull.messages.WF := by decide
  have h7 : sFull.messages.KeyedBy Message.id := by decide
  have h8 : sFull.message_status.WF := by decide
  have h9 : sFull.notifications.WF := by decide
  have h10 : sFull.notifications.KeyedBy Notification.id := by decide
  have hinv : StatusInv sFull :=
    statusInv_single sFull "m1" msg1 ⟨"m1", "m1", false, none⟩ rfl rfl
  obtain ⟨_, _, _, _, _, g6, g7⟩ := C1_delete_account_cascade sFull userA
    h1 h2 h3 h4 h5 h6 h7 h8 h9 h10 hinv
  exact ⟨h1, h2, h3, h4, h5, h6, h7, h8, h9, h10, g6, g7⟩

end ChatApp
